import Mathlib

/-!
Verification of the markdown/response-formatting core of the
Nexus-Agentic-AI repository.

Strings are modelled as `List Char` (JavaScript strings are sequences of
code units; all inputs considered here are well-formed, so Unicode scalar
values — Lean `Char` — are a faithful model).  Every definition is a
shallow embedding of a function from `src/response-template.js`,
`src/public/response-formatter.js` or `src/unnamed/part_000`; the regular
expressions used by the source are embedded as explicit left-to-right
scanners implementing the exact JavaScript matching semantics of those
concrete patterns (greedy/lazy quantifiers, word boundaries, global
continuation after each match).
-/

set_option maxRecDepth 100000

namespace Nexus

/-- Convenience: the character list of a string literal. -/
def str (s : String) : List Char := s.data

/-- Single-quote character (U+0027), written numerically. -/
def sq : Char := Char.ofNat 39

/-- Backtick character (U+0060), written numerically. -/
def bq : Char := Char.ofNat 96

/-- Does `pat` match at the head of `l`? -/
def begMatch : List Char → List Char → Bool
  | [], _ => true
  | _ :: _, [] => false
  | p :: ps, c :: cs => p == c && begMatch ps cs

/-- Does `pat` occur as a contiguous substring of `l`? -/
def hasSub (pat : List Char) : List Char → Bool
  | [] => begMatch pat []
  | c :: cs => begMatch pat (c :: cs) || hasSub pat cs

/-- Split `l` at the first occurrence of `pat`: the part strictly before
the match and the part strictly after it. -/
def splitFirst (pat : List Char) : List Char → Option (List Char × List Char)
  | [] => if begMatch pat [] then some ([], []) else none
  | c :: cs =>
    if begMatch pat (c :: cs) then some ([], (c :: cs).drop pat.length)
    else match splitFirst pat cs with
      | some (b, a) => some (c :: b, a)
      | none => none

/-- Expansion of dollar patterns in the replacement string of JavaScript
`String.replace` when the pattern is a plain string (hence no capture
groups): `$$` yields `$`, `$&` yields the matched text, a dollar followed
by a backquote yields the text before the match, a dollar followed by a
single quote yields the text after the match; any other `$` is literal. -/
def dollarExpand (matched before after : List Char) : List Char → List Char
  | [] => []
  | [c] => [c]
  | c :: d :: rest =>
    if c = '$' then
      if d = '$' then '$' :: dollarExpand matched before after rest
      else if d = '&' then matched ++ dollarExpand matched before after rest
      else if d = bq then before ++ dollarExpand matched before after rest
      else if d = sq then after ++ dollarExpand matched before after rest
      else '$' :: dollarExpand matched before after (d :: rest)
    else c :: dollarExpand matched before after (d :: rest)

/-- JavaScript `s.replace(pat, rep)` with a plain-string pattern: replace
the first occurrence only, expanding dollar patterns in the replacement. -/
def jsReplaceFirst (s pat rep : List Char) : List Char :=
  match splitFirst pat s with
  | none => s
  | some (b, a) => b ++ dollarExpand pat b a rep ++ a

/-- The format string of `formatterTemplate` in both formatter files. -/
def formatterTemplateFormat : List Char := str "# \x7btitle\x7d\n\n\x7banswer\x7d"

/-- JavaScript `question.endsWith('?')`. -/
def endsWithQm (q : List Char) : Bool :=
  match q.getLast? with
  | some c => c == '?'
  | none => false

/-- The title computed by `formatResponse`. -/
def mkTitle (q : List Char) : List Char :=
  if endsWithQm q then q else q ++ ['?']

/-- Shallow embedding of `formatResponse` (response-template.js lines
9–14 and response-formatter.js lines 8–13): two sequential
single-occurrence string replaces on the template. -/
def formatResponse (question answer : List Char) : List Char :=
  jsReplaceFirst
    (jsReplaceFirst formatterTemplateFormat (str "\x7btitle\x7d") (mkTitle question))
    (str "\x7banswer\x7d") answer

/-- The replacement string contains no dollar pattern that
`dollarExpand` rewrites. -/
def noDollarSpecial : List Char → Bool
  | [] => true
  | [_] => true
  | c :: d :: rest =>
    if c = '$' then
      if d = '$' ∨ d = '&' ∨ d = bq ∨ d = sq then false
      else noDollarSpecial (d :: rest)
    else noDollarSpecial (d :: rest)

theorem dollarExpand_of_noSpecial (m b a : List Char) :
    ∀ rep : List Char, noDollarSpecial rep = true → dollarExpand m b a rep = rep
  | [], _ => rfl
  | [_], _ => rfl
  | c :: d :: rest, h => by
    by_cases hc : c = '$'
    · subst hc
      by_cases hd : d = '$' ∨ d = '&' ∨ d = bq ∨ d = sq
      · simp [noDollarSpecial, hd] at h
      · push_neg at hd
        obtain ⟨h1, h2, h3, h4⟩ := hd
        have h' : noDollarSpecial (d :: rest) = true := by
          simpa [noDollarSpecial, h1, h2, h3, h4] using h
        simp [dollarExpand, h1, h2, h3, h4,
          dollarExpand_of_noSpecial m b a (d :: rest) h']
    · have h' : noDollarSpecial (d :: rest) = true := by
        simpa [noDollarSpecial, hc] using h
      simp [dollarExpand, hc, dollarExpand_of_noSpecial m b a (d :: rest) h']

theorem begMatch_iff (pat : List Char) :
    ∀ l : List Char, begMatch pat l = true ↔
      l.take pat.length = pat ∧ pat.length ≤ l.length := by
  induction pat with
  | nil => intro l; simp [begMatch]
  | cons p ps ih =>
    intro l
    cases l with
    | nil => simp [begMatch]
    | cons c cs =>
      simp [begMatch, ih cs, List.take_succ_cons, Nat.succ_le_succ_iff,
        and_comm, and_assoc, eq_comm (a := c) (b := p)]
      tauto

theorem begMatch_append_self (pat rest : List Char) :
    begMatch pat (pat ++ rest) = true := by
  rw [begMatch_iff]
  constructor
  · rw [List.take_append_eq_append_take]
    simp
  · simp

theorem hasSub_of_begMatch (pat l : List Char) (h : begMatch pat l = true) :
    hasSub pat l = true := by
  cases l with
  | nil => simpa [hasSub] using h
  | cons c cs => simp [hasSub, h]

theorem begMatch_mid_false (pat u w : List Char) (hnl : '\n' ∉ pat)
    (h : hasSub pat u = false) : begMatch pat (u ++ '\n' :: w) = false := by
  by_contra hb
  rw [Bool.not_eq_false, begMatch_iff] at hb
  obtain ⟨htake, hlen⟩ := hb
  rw [List.take_append_eq_append_take] at htake
  by_cases hle : pat.length ≤ u.length
  · rw [Nat.sub_eq_zero_of_le hle] at htake
    simp only [List.take_zero, List.append_nil] at htake
    have : begMatch pat u = true := by
      rw [begMatch_iff]; exact ⟨htake, hle⟩
    rw [hasSub_of_begMatch pat u this] at h
    exact Bool.true_eq_false.mp h
  · push_neg at hle
    have hk : 1 ≤ pat.length - u.length := by omega
    have : '\n' ∈ pat := by
      rw [← htake]
      refine List.mem_append_right _ ?_
      have : (('\n' :: w).take (pat.length - u.length)) =
          '\n' :: w.take (pat.length - u.length - 1) := by
        cases hpe : pat.length - u.length with
        | zero => omega
        | succ n => simp [List.take_succ_cons]
      rw [this]; exact List.mem_cons_self _ _
    exact hnl this

theorem splitFirst_of_begMatch (pat l : List Char) (h : begMatch pat l = true) :
    splitFirst pat l = some ([], l.drop pat.length) := by
  cases l with
  | nil =>
    cases pat with
    | nil => simp [splitFirst, begMatch]
    | cons p ps => simp [begMatch] at h
  | cons c cs => simp [splitFirst, h]

theorem splitFirst_cons_false (pat : List Char) (c : Char) (cs : List Char)
    (h : begMatch pat (c :: cs) = false) :
    splitFirst pat (c :: cs) =
      (splitFirst pat cs).map (fun p => (c :: p.1, p.2)) := by
  simp only [splitFirst, h, Bool.false_eq_true, if_false]
  cases splitFirst pat cs <;> simp

theorem splitFirst_mid (pat w : List Char) (hne : pat ≠ []) (hnl : '\n' ∉ pat) :
    ∀ u : List Char, hasSub pat u = false →
      splitFirst pat (u ++ '\n' :: '\n' :: (pat ++ w)) = some (u ++ ['\n', '\n'], w)
  | [], h => by
    obtain ⟨p, ps, rfl⟩ : ∃ p ps, pat = p :: ps := by
      cases pat with
      | nil => exact absurd rfl hne
      | cons p ps => exact ⟨p, ps, rfl⟩
    have hp : p ≠ '\n' := by
      intro hp; exact hnl (hp ▸ List.mem_cons_self _ _)
    have hb1 : begMatch (p :: ps) ('\n' :: '\n' :: (p :: ps ++ w)) = false := by
      simp [begMatch, hp]
    have hb2 : begMatch (p :: ps) ('\n' :: (p :: ps ++ w)) = false := by
      simp [begMatch, hp]
    rw [List.nil_append, splitFirst_cons_false _ _ _ hb1,
      splitFirst_cons_false _ _ _ hb2,
      splitFirst_of_begMatch _ _ (begMatch_append_self (p :: ps) w)]
    simp
  | c :: u', h => by
    have hsplit : begMatch pat (c :: u') = false ∧ hasSub pat u' = false := by
      constructor
      · cases hb : begMatch pat (c :: u') with
        | false => rfl
        | true => rw [hasSub, hb] at h; simp at h
      · cases hs : hasSub pat u' with
        | false => rfl
        | true => rw [hasSub, hs] at h; simp at h
    have hb : begMatch pat ((c :: u') ++ '\n' :: ('\n' :: (pat ++ w))) = false :=
      begMatch_mid_false pat (c :: u') _ hnl (by rw [hasSub, hsplit.1, hsplit.2]; rfl)
    rw [List.cons_append, splitFirst_cons_false _ _ _ (by simpa using hb),
      splitFirst_mid pat w hne hnl u' hsplit.2]
    simp

theorem hasSub_hash_space (pat t : List Char) (hp : pat.head? ≠ some '#')
    (hs : pat.head? ≠ some ' ') (h3 : hasSub pat t = false) :
    hasSub pat ('#' :: ' ' :: t) = false := by
  cases pat with
  | nil => cases t <;> simp [hasSub, begMatch] at h3
  | cons p ps =>
    simp only [List.head?] at hp hs
    have hp' : p ≠ '#' := by intro hpe; exact hp (by rw [hpe])
    have hs' : p ≠ ' ' := by intro hse; exact hs (by rw [hse])
    simp [hasSub, begMatch, hp', hs', h3]

/-! ### Stage 1 of `convertMarkdownToHTML`: whitespace normalization

Line 25 of response-template.js:
`markdown.trim().replace(newline ws-star newline ws-star newline → two
newlines, global)`.  At a given start position the regex matches iff the
maximal whitespace run beginning there contains at least three newlines,
and greedy backtracking makes the match extend exactly through the last
newline of that run; scanning then resumes after the match. -/

/-- The JavaScript whitespace class: the characters matched by the
whitespace regex class and removed by `String.prototype.trim`. -/
def jsWS (c : Char) : Bool :=
  c.toNat = 9 || c.toNat = 10 || c.toNat = 11 || c.toNat = 12 || c.toNat = 13 ||
    c.toNat = 32 || c.toNat = 160 || c.toNat = 0x1680 ||
    (0x2000 ≤ c.toNat && c.toNat ≤ 0x200A) || c.toNat = 0x2028 || c.toNat = 0x2029 ||
    c.toNat = 0x202F || c.toNat = 0x205F || c.toNat = 0x3000 || c.toNat = 0xFEFF

/-- JavaScript `String.prototype.trim`. -/
def jsTrim (l : List Char) : List Char :=
  ((l.dropWhile jsWS).reverse.dropWhile jsWS).reverse

/-- Number of newline characters in `l`. -/
def nlCount (l : List Char) : Nat := l.countP (fun c => c == '\n')

/-- Length of the shortest prefix of `run` containing every newline of
`run` (zero when there is none): a successful match of the collapsing
regex extends exactly this far into the whitespace run. -/
def afterLastNl (run : List Char) : Nat :=
  run.length - (run.reverse.takeWhile (fun c => !(c == '\n'))).length

theorem takeWhile_length_lt (p : Char → Bool) :
    ∀ l : List Char, (∃ x ∈ l, p x = false) → (l.takeWhile p).length < l.length
  | [], h => by simp at h
  | c :: cs, h => by
    by_cases hc : p c
    · rw [List.takeWhile_cons_of_pos hc]
      obtain ⟨x, hx, hpx⟩ := h
      rcases List.mem_cons.mp hx with rfl | hx'
      · rw [hc] at hpx; exact absurd hpx (by simp)
      · have := takeWhile_length_lt p cs ⟨x, hx', hpx⟩
        simpa [List.length_cons] using Nat.succ_lt_succ this
    · rw [List.takeWhile_cons_of_neg hc]
      simp

theorem takeWhile_length_le (p : Char → Bool) (l : List Char) :
    (l.takeWhile p).length ≤ l.length :=
  ( List.takeWhile_prefix p).sublist.length_le

theorem afterLastNl_pos (run : List Char) (h : '\n' ∈ run) : 1 ≤ afterLastNl run := by
  unfold afterLastNl
  have := takeWhile_length_lt (fun c => !(c == '\n')) run.reverse
    ⟨'\n', List.mem_reverse.mpr h, by simp⟩
  simp only [List.length_reverse] at this
  omega

theorem afterLastNl_le (run : List Char) : afterLastNl run ≤ run.length :=
  Nat.sub_le _ _

theorem collapseNl_dec (c : Char) (rest : List Char)
    (h : c = '\n' ∧ 3 ≤ nlCount ((c :: rest).takeWhile jsWS)) :
    ((c :: rest).drop (afterLastNl ((c :: rest).takeWhile jsWS))).length
      < (c :: rest).length := by
  have hin : '\n' ∈ (c :: rest).takeWhile jsWS := by
    obtain ⟨rfl, -⟩ := h
    rw [List.takeWhile_cons_of_pos (by decide : jsWS '\n' = true)]
    exact List.mem_cons_self _ _
  have hk := afterLastNl_pos _ hin
  simp only [List.length_drop, List.length_cons]
  omega

/-- Shallow embedding of the global newline-collapsing replace of
convertMarkdownToHTML line 25 (see the section comment for the regex
semantics argument). -/
def collapseNl (l : List Char) : List Char :=
  match l with
  | [] => []
  | c :: rest =>
    if h : c = '\n' ∧ 3 ≤ nlCount ((c :: rest).takeWhile jsWS) then
      '\n' :: '\n' ::
        collapseNl ((c :: rest).drop (afterLastNl ((c :: rest).takeWhile jsWS)))
    else c :: collapseNl rest
termination_by l.length
decreasing_by
  · exact collapseNl_dec _ _ (by assumption)
  · simp [List.length_cons]

/-- Structural (fuel-indexed) form of `collapseNl`, so that the kernel
can evaluate the pipeline on concrete inputs; `collapseNlF_eq` below
identifies it with `collapseNl` whenever the fuel covers the length. -/
def collapseNlF : Nat → List Char → List Char
  | _, [] => []
  | 0, l => l
  | fuel + 1, c :: rest =>
    if c = '\n' ∧ 3 ≤ nlCount ((c :: rest).takeWhile jsWS) then
      '\n' :: '\n' ::
        collapseNlF fuel ((c :: rest).drop (afterLastNl ((c :: rest).takeWhile jsWS)))
    else c :: collapseNlF fuel rest

theorem collapseNlF_eq :
    ∀ (fuel : Nat) (l : List Char), l.length ≤ fuel →
      collapseNlF fuel l = collapseNl l := by
  intro fuel
  induction fuel with
  | zero =>
    intro l hl
    cases l with
    | nil => simp [collapseNlF, collapseNl]
    | cons c rest => simp at hl
  | succ n ih =>
    intro l hl
    cases l with
    | nil => simp [collapseNlF, collapseNl]
    | cons c rest =>
      simp only [collapseNlF, collapseNl]
      by_cases h : c = '\n' ∧ 3 ≤ nlCount ((c :: rest).takeWhile jsWS)
      · rw [if_pos h, dif_pos h]
        have hd := collapseNl_dec c rest h
        simp only [List.length_cons] at hd hl
        have := ih ((c :: rest).drop (afterLastNl ((c :: rest).takeWhile jsWS)))
          (by simp only [List.length_drop, List.length_cons] at *; omega)
        rw [this]
      · rw [if_neg h, dif_neg h]
        have := ih rest (by simp only [List.length_cons] at hl; omega)
        rw [this]

/-- Stage 1 of `convertMarkdownToHTML` (response-template.js line 25). -/
def normalizeWhitespace (markdown : List Char) : List Char :=
  collapseNlF (jsTrim markdown).length (jsTrim markdown)

theorem normalizeWhitespace_eq_collapseNl (s : List Char) :
    normalizeWhitespace s = collapseNl (jsTrim s) := by
  unfold normalizeWhitespace
  exact collapseNlF_eq _ _ le_rfl

/-- No three consecutive newline characters occur in `l`. -/
def noTriple : List Char → Bool
  | [] => true
  | [_] => true
  | [_, _] => true
  | a :: b :: c :: rest =>
    if a = '\n' ∧ b = '\n' ∧ c = '\n' then false else noTriple (b :: c :: rest)

/-- Number of leading newline characters of `l`. -/
def nlLead : List Char → Nat
  | [] => 0
  | c :: rest => if c = '\n' then nlLead rest + 1 else 0

theorem noTriple_cons_of (x : Char) (xs : List Char) (h : noTriple xs = true)
    (h2 : x ≠ '\n' ∨ nlLead xs ≤ 1) : noTriple (x :: xs) = true := by
  match xs with
  | [] => rfl
  | [y] => rfl
  | y :: z :: rest =>
    by_cases hx : x = '\n'
    · subst hx
      have hl : nlLead (y :: z :: rest) ≤ 1 := h2.resolve_left (not_not_intro rfl)
      by_cases hy : y = '\n'
      · subst hy
        have hz : z ≠ '\n' := by
          intro hze
          simp [nlLead, hze] at hl
        simp [noTriple, hz, h]
      · simp [noTriple, hy, h]
    · simp [noTriple, hx, h]

theorem head_dropWhile_false (p : Char → Bool) :
    ∀ l : List Char, ∀ c, (l.dropWhile p).head? = some c → p c = false
  | [], c, h => by simp [List.dropWhile] at h
  | x :: xs, c, h => by
    by_cases hx : p x
    · rw [List.dropWhile_cons_of_pos hx] at h
      exact head_dropWhile_false p xs c h
    · rw [List.dropWhile_cons_of_neg hx] at h
      simp only [List.head?_cons, Option.some.injEq] at h
      rw [← h]
      simpa using hx

theorem head_drop_afterLastNl (l : List Char) (c : Char)
    (hc : (l.drop (afterLastNl (l.takeWhile jsWS))).head? = some c) : c ≠ '\n' := by
  set run := l.takeWhile jsWS with hrundef
  set t := run.reverse.takeWhile (fun x => !(x == '\n')) with htdef
  set d := run.reverse.dropWhile (fun x => !(x == '\n')) with hddef
  have hsplit : run.reverse = t ++ d := (List.takeWhile_append_dropWhile _ _).symm
  have hrun2 : run = d.reverse ++ t.reverse := by
    rw [← List.reverse_reverse run, hsplit, List.reverse_append]
  have hlen : run.length = t.length + d.length := by
    rw [← List.length_reverse run, hsplit, List.length_append]
  have hklen : afterLastNl run = d.reverse.length := by
    unfold afterLastNl
    rw [← htdef, List.length_reverse]
    omega
  have hl : l = run ++ l.dropWhile jsWS := (List.takeWhile_append_dropWhile _ _).symm
  have hdrop : l.drop (afterLastNl run) = t.reverse ++ l.dropWhile jsWS := by
    rw [hklen]
    conv_lhs => rw [hl, hrun2]
    rw [List.append_assoc, List.drop_left]
  rw [hdrop] at hc
  cases htr : t.reverse with
  | nil =>
    rw [htr] at hc
    simp only [List.nil_append] at hc
    have := head_dropWhile_false jsWS l c hc
    intro hce
    rw [hce] at this
    exact absurd this (by decide)
  | cons x xs =>
    rw [htr] at hc
    simp only [List.cons_append, List.head?_cons, Option.some.injEq] at hc
    have hx : x ∈ t := by
      have hmem : x ∈ t.reverse := by rw [htr]; exact List.mem_cons_self _ _
      exact List.mem_reverse.mp hmem
    have hpx := List.mem_takeWhile_imp hx
    rw [← hc]
    simpa using hpx

theorem nlLead_collapse_zero (l : List Char)
    (h : ∀ c, l.head? = some c → c ≠ '\n') : nlLead (collapseNl l) = 0 := by
  cases l with
  | nil => simp [collapseNl, nlLead]
  | cons c rest =>
    have hc : c ≠ '\n' := h c rfl
    simp only [collapseNl]
    rw [dif_neg (by intro hh; exact hc hh.1)]
    simp [nlLead, hc]

/-! ### Preservation of the raw code text (C1)

Line 96 of response-template.js stores
`btoa(unescape(encodeURIComponent(originalCode)))` and line 159 of
`copyCodeBlock` recovers `decodeURIComponent(escape(atob(encoded)))`.
The four JavaScript globals are embedded below; `decodeURIComponent` is
the strict percent-UTF-8 decoder (malformed input yields `none`,
modelling the thrown `URIError`). -/

/-- UTF-8 bytes of a Unicode scalar value. -/
def utf8Bytes (n : Nat) : List Nat :=
  if n < 0x80 then [n]
  else if n < 0x800 then [0xC0 + n / 64, 0x80 + n % 64]
  else if n < 0x10000 then
    [0xE0 + n / 4096, 0x80 + (n / 64) % 64, 0x80 + n % 64]
  else
    [0xF0 + n / 0x40000, 0x80 + (n / 4096) % 64, 0x80 + (n / 64) % 64,
      0x80 + n % 64]

/-- UTF-8 byte sequence of a string. -/
def utf8Str : List Char → List Nat
  | [] => []
  | c :: cs => utf8Bytes c.toNat ++ utf8Str cs

/-- Upper-case hexadecimal digit character, as produced by
`encodeURIComponent` and `escape`. -/
def hexDigit (d : Nat) : Char :=
  if d < 10 then Char.ofNat (48 + d) else Char.ofNat (55 + d)

/-- Value of a hexadecimal digit character (case insensitive); `none`
when the character is not a hexadecimal digit. -/
def hexVal (c : Char) : Option Nat :=
  if 48 ≤ c.toNat ∧ c.toNat ≤ 57 then some (c.toNat - 48)
  else if 65 ≤ c.toNat ∧ c.toNat ≤ 70 then some (c.toNat - 55)
  else if 97 ≤ c.toNat ∧ c.toNat ≤ 102 then some (c.toNat - 87)
  else none

/-- Percent-escape of one byte. -/
def pctByte (b : Nat) : List Char := ['%', hexDigit (b / 16), hexDigit (b % 16)]

/-- Percent-escapes of a byte list. -/
def pctBytes : List Nat → List Char
  | [] => []
  | b :: bs => pctByte b ++ pctBytes bs

/-- The characters `encodeURIComponent` leaves unescaped
(letters, digits, and the marks `- _ . ! ~ * ( )` and the single
quote). -/
def uriUnreserved (c : Char) : Bool :=
  (65 ≤ c.toNat && c.toNat ≤ 90) || (97 ≤ c.toNat && c.toNat ≤ 122) ||
    (48 ≤ c.toNat && c.toNat ≤ 57) ||
    c == '-' || c == '_' || c == '.' || c == '!' || c == '~' || c == '*' ||
    c == sq || c == '(' || c == ')'

/-- JavaScript `encodeURIComponent` on a well-formed string: unreserved
characters pass through, every other character is replaced by the
percent-escapes of its UTF-8 bytes. -/
def encodeURIComponent : List Char → List Char
  | [] => []
  | c :: cs =>
    (if uriUnreserved c then [c] else pctBytes (utf8Bytes c.toNat)) ++
      encodeURIComponent cs

/-- One escape sequence after a percent sign, for `unescape`: either
`uXXXX` (four hex digits, consuming five characters) or `XX` (two hex
digits, consuming two characters); `none` when neither form follows. -/
def unescSeq (rest : List Char) : Option (Char × Nat) :=
  if rest.head? = some 'u' then
    match rest with
    | _ :: a :: b :: c :: d :: _ =>
      match hexVal a, hexVal b, hexVal c, hexVal d with
      | some x, some y, some z, some w =>
        some (Char.ofNat (4096 * x + 256 * y + 16 * z + w), 5)
      | _, _, _, _ => none
    | _ => none
  else
    match rest with
    | a :: b :: _ =>
      match hexVal a, hexVal b with
      | some x, some y => some (Char.ofNat (16 * x + y), 2)
      | _, _ => none
    | _ => none

/-- JavaScript `unescape`: percent sequences are decoded to the code
unit they denote, everything else is literal. -/
def unescape : List Char → List Char
  | [] => []
  | c :: rest =>
    if c = '%' then
      match unescSeq rest with
      | some (ch, k) => ch :: unescape (rest.drop k)
      | none => '%' :: unescape rest
    else c :: unescape rest
termination_by l => l.length
decreasing_by
  · simp only [List.length_drop, List.length_cons]; omega
  · simp
  · simp

/-- The characters JavaScript `escape` leaves unescaped
(letters, digits, and `@ * _ + - . /`). -/
def escapeLiteral (c : Char) : Bool :=
  (65 ≤ c.toNat && c.toNat ≤ 90) || (97 ≤ c.toNat && c.toNat ≤ 122) ||
    (48 ≤ c.toNat && c.toNat ≤ 57) ||
    c == '@' || c == '*' || c == '_' || c == '+' || c == '-' || c == '.' ||
    c == '/'

/-- Four upper-case hexadecimal digits. -/
def hexDigit4 (n : Nat) : List Char :=
  [hexDigit (n / 4096 % 16), hexDigit (n / 256 % 16), hexDigit (n / 16 % 16),
    hexDigit (n % 16)]

/-- JavaScript `escape`. -/
def escape : List Char → List Char
  | [] => []
  | c :: rest =>
    (if escapeLiteral c then [c]
     else if c.toNat < 256 then pctByte c.toNat
     else '%' :: 'u' :: hexDigit4 c.toNat) ++ escape rest

/-- Read one percent-escaped byte. -/
def pctHex : List Char → Option (Nat × List Char)
  | '%' :: a :: b :: rest =>
    match hexVal a, hexVal b with
    | some x, some y => some (16 * x + y, rest)
    | _, _ => none
  | _ => none

/-- Decode one percent-escaped UTF-8 sequence: the decoded scalar value
and the number of input characters consumed. -/
def pctDecode (l : List Char) : Option (Char × Nat) :=
  match pctHex l with
  | none => none
  | some (b0, r1) =>
    if b0 < 0x80 then some (Char.ofNat b0, 3)
    else if 0xC2 ≤ b0 ∧ b0 ≤ 0xDF then
      match pctHex r1 with
      | some (b1, _) =>
        if 0x80 ≤ b1 ∧ b1 ≤ 0xBF then
          some (Char.ofNat ((b0 - 0xC0) * 64 + (b1 - 0x80)), 6)
        else none
      | none => none
    else if 0xE0 ≤ b0 ∧ b0 ≤ 0xEF then
      match pctHex r1 with
      | some (b1, r2) =>
        match pctHex r2 with
        | some (b2, _) =>
          if (0x80 ≤ b1 ∧ b1 ≤ 0xBF) ∧ (0x80 ≤ b2 ∧ b2 ≤ 0xBF) then
            let cp := (b0 - 0xE0) * 4096 + (b1 - 0x80) * 64 + (b2 - 0x80)
            if 0x800 ≤ cp ∧ ¬(0xD800 ≤ cp ∧ cp < 0xE000) then
              some (Char.ofNat cp, 9)
            else none
          else none
        | none => none
      | none => none
    else if 0xF0 ≤ b0 ∧ b0 ≤ 0xF4 then
      match pctHex r1 with
      | some (b1, r2) =>
        match pctHex r2 with
        | some (b2, r3) =>
          match pctHex r3 with
          | some (b3, _) =>
            if (0x80 ≤ b1 ∧ b1 ≤ 0xBF) ∧ (0x80 ≤ b2 ∧ b2 ≤ 0xBF) ∧
                (0x80 ≤ b3 ∧ b3 ≤ 0xBF) then
              let cp := (b0 - 0xF0) * 0x40000 + (b1 - 0x80) * 4096 +
                (b2 - 0x80) * 64 + (b3 - 0x80)
              if 0x10000 ≤ cp ∧ cp < 0x110000 then some (Char.ofNat cp, 12)
              else none
            else none
          | none => none
        | none => none
      | none => none
    else none

theorem pctDecode_consumed (l : List Char) (ch : Char) (k : Nat)
    (h : pctDecode l = some (ch, k)) : 1 ≤ k := by
  unfold pctDecode at h
  repeat' split at h
  all_goals simp_all
  all_goals omega

/-- JavaScript `decodeURIComponent`; `none` models the thrown
`URIError` on malformed percent data. -/
def decodeURIComponent : List Char → Option (List Char)
  | [] => some []
  | c :: rest =>
    if c = '%' then
      match hpd : pctDecode (c :: rest) with
      | some (ch, k) => (decodeURIComponent ((c :: rest).drop k)).map (ch :: ·)
      | none => none
    else (decodeURIComponent rest).map (c :: ·)
termination_by l => l.length
decreasing_by
  · simp only [List.length_drop, List.length_cons]
    have h1 := pctDecode_consumed _ _ _ (by assumption)
    omega
  · simp

/-- The base-64 alphabet used by `btoa`. -/
def b64Alphabet : List Char :=
  str "ABCDEFGHIJKLMNOPQRSTUVWXYZabcdefghijklmnopqrstuvwxyz0123456789+/"

/-- Base-64 digit character. -/
def b64Char (n : Nat) : Char := b64Alphabet.getD n 'A'

/-- Value of a base-64 digit character. -/
def b64Val (c : Char) : Option Nat :=
  if 65 ≤ c.toNat ∧ c.toNat ≤ 90 then some (c.toNat - 65)
  else if 97 ≤ c.toNat ∧ c.toNat ≤ 122 then some (c.toNat - 97 + 26)
  else if 48 ≤ c.toNat ∧ c.toNat ≤ 57 then some (c.toNat - 48 + 52)
  else if c = '+' then some 62
  else if c = '/' then some 63
  else none

/-- Base-64 encoding of a byte list (the body of `btoa`). -/
def b64Encode : List Nat → List Char
  | [] => []
  | [b0] => [b64Char (b0 / 4), b64Char (b0 % 4 * 16), '=', '=']
  | [b0, b1] =>
    [b64Char (b0 / 4), b64Char (b0 % 4 * 16 + b1 / 16), b64Char (b1 % 16 * 4), '=']
  | b0 :: b1 :: b2 :: rest =>
    b64Char (b0 / 4) :: b64Char (b0 % 4 * 16 + b1 / 16) ::
      b64Char (b1 % 16 * 4 + b2 / 64) :: b64Char (b2 % 64) :: b64Encode rest

/-- Base-64 decoding (the body of `atob`); `none` on malformed input. -/
def b64Decode : List Char → Option (List Nat)
  | [] => some []
  | c0 :: c1 :: c2 :: c3 :: rest =>
    if rest.isEmpty && c2 == '=' && c3 == '=' then
      match b64Val c0, b64Val c1 with
      | some v0, some v1 =>
        if v1 % 16 = 0 then some [v0 * 4 + v1 / 16] else none
      | _, _ => none
    else if rest.isEmpty && c3 == '=' then
      match b64Val c0, b64Val c1, b64Val c2 with
      | some v0, some v1, some v2 =>
        if v2 % 4 = 0 then some [v0 * 4 + v1 / 16, v1 % 16 * 16 + v2 / 4]
        else none
      | _, _, _ => none
    else
      match b64Val c0, b64Val c1, b64Val c2, b64Val c3 with
      | some v0, some v1, some v2, some v3 =>
        (b64Decode rest).map
          (fun bs => (v0 * 4 + v1 / 16) :: (v1 % 16 * 16 + v2 / 4) ::
            (v2 % 4 * 64 + v3) :: bs)
      | _, _, _, _ => none
  | _ => none

/-- JavaScript `btoa`: base-64 of the character codes; `none` models the
thrown error when a character exceeds code 255. -/
def btoa (l : List Char) : Option (List Char) :=
  if l.all (fun c => c.toNat < 256) then some (b64Encode (l.map Char.toNat))
  else none

/-- JavaScript `atob`. -/
def atob (l : List Char) : Option (List Char) :=
  (b64Decode l).map (fun bs => bs.map (fun b => Char.ofNat b))

/-- The encoding written into the `data-original-code` attribute
(response-template.js line 96). -/
def encodeStored (code : List Char) : Option (List Char) :=
  btoa (unescape (encodeURIComponent code))

/-- The decoding performed by `copyCodeBlock`
(response-template.js line 159). -/
def decodeStored (enc : List Char) : Option (List Char) :=
  (atob enc).bind (fun t => decodeURIComponent (escape t))

theorem hexVal_hexDigit (d : Nat) (h : d < 16) : hexVal (hexDigit d) = some d := by
  have hall : ∀ e, e < 16 → hexVal (hexDigit e) = some e := by decide
  exact hall d h

theorem hexDigit_ne_u (d : Nat) (h : d < 16) : hexDigit d ≠ 'u' := by
  have hall : ∀ e, e < 16 → hexDigit e ≠ 'u' := by decide
  exact hall d h

theorem b64Val_b64Char (v : Nat) (h : v < 64) : b64Val (b64Char v) = some v := by
  have hall : ∀ w, w < 64 → b64Val (b64Char w) = some w := by decide
  exact hall v h

theorem b64Char_ne_eqSign (v : Nat) (h : v < 64) : (b64Char v == '=') = false := by
  have hall : ∀ w, w < 64 → (b64Char w == '=') = false := by decide
  exact hall v h

theorem toNat_ofNat_valid (n : Nat) (h : n < 0xD800) : (Char.ofNat n).toNat = n := by
  unfold Char.ofNat
  rw [dif_pos (Or.inl h)]
  rfl

theorem char_valid (c : Char) : c.toNat < 0xD800 ∨ (0xE000 ≤ c.toNat ∧ c.toNat < 0x110000) :=
  c.valid

theorem char_toNat_lt (c : Char) : c.toNat < 0x110000 := by
  rcases char_valid c with h | ⟨h1, h2⟩ <;> omega

theorem utf8Bytes_lt_256 (n : Nat) (hn : n < 0x110000) :
    ∀ b ∈ utf8Bytes n, b < 256 := by
  intro b hb
  unfold utf8Bytes at hb
  repeat' split at hb
  all_goals simp_all
  all_goals omega

theorem utf8Str_lt_256 : ∀ l : List Char, ∀ b ∈ utf8Str l, b < 256
  | [], b, hb => by simp [utf8Str] at hb
  | c :: cs, b, hb => by
    simp only [utf8Str, List.mem_append] at hb
    rcases hb with hb | hb
    · exact utf8Bytes_lt_256 c.toNat (char_toNat_lt c) b hb
    · exact utf8Str_lt_256 cs b hb

theorem unescape_cons_lit (c : Char) (rest : List Char) (h : c ≠ '%') :
    unescape (c :: rest) = c :: unescape rest := by
  simp only [unescape]
  rw [if_neg h]

theorem unescape_pctByte (b : Nat) (hb : b < 256) (rest : List Char) :
    unescape (pctByte b ++ rest) = Char.ofNat b :: unescape rest := by
  have h1 : hexVal (hexDigit (b / 16)) = some (b / 16) := hexVal_hexDigit _ (by omega)
  have h2 : hexVal (hexDigit (b % 16)) = some (b % 16) := hexVal_hexDigit _ (by omega)
  have hseq : unescSeq (hexDigit (b / 16) :: hexDigit (b % 16) :: rest)
      = some (Char.ofNat (16 * (b / 16) + b % 16), 2) := by
    unfold unescSeq
    rw [if_neg (by
      simp only [List.head?]
      intro hcon
      exact hexDigit_ne_u (b / 16) (by omega) (Option.some.injEq _ _ ▸ hcon))]
    simp [h1, h2]
  show unescape ('%' :: hexDigit (b / 16) :: hexDigit (b % 16) :: rest) = _
  simp only [unescape]
  rw [if_pos trivial, hseq]
  have harith : 16 * (b / 16) + b % 16 = b := by omega
  simp [harith]

theorem unescape_pctBytes : ∀ (bs : List Nat), (∀ b ∈ bs, b < 256) →
    ∀ rest, unescape (pctBytes bs ++ rest) = bs.map Char.ofNat ++ unescape rest
  | [], _, rest => by simp [pctBytes]
  | b :: bs, h, rest => by
    simp only [pctBytes, List.map, List.append_assoc]
    rw [unescape_pctByte b (h b (List.mem_cons_self _ _)) _,
      unescape_pctBytes bs (fun x hx => h x (List.mem_cons_of_mem _ hx)) rest]
    rfl

theorem uriUnreserved_props (c : Char) (h : uriUnreserved c = true) :
    c.toNat < 128 ∧ c ≠ '%' := by
  simp only [uriUnreserved, Bool.or_eq_true, Bool.and_eq_true, decide_eq_true_eq,
    beq_iff_eq] at h
  casesm* _ ∨ _
  all_goals rename_i h
  all_goals first
    | (subst h; exact ⟨by decide, by decide⟩)
    | (obtain ⟨h1, h2⟩ := h
       refine ⟨by omega, ?_⟩
       intro hc
       subst hc
       revert h1
       decide)

theorem escapeLiteral_props (c : Char) (h : escapeLiteral c = true) :
    c.toNat < 128 ∧ c ≠ '%' := by
  simp only [escapeLiteral, Bool.or_eq_true, Bool.and_eq_true, decide_eq_true_eq,
    beq_iff_eq] at h
  casesm* _ ∨ _
  all_goals rename_i h
  all_goals first
    | (subst h; exact ⟨by decide, by decide⟩)
    | (obtain ⟨h1, h2⟩ := h
       refine ⟨by omega, ?_⟩
       intro hc
       subst hc
       revert h1
       decide)

theorem unescape_encodeURIComponent : ∀ l : List Char,
    unescape (encodeURIComponent l) = (utf8Str l).map Char.ofNat
  | [] => by simp [unescape, encodeURIComponent, utf8Str]
  | c :: cs => by
    simp only [encodeURIComponent, utf8Str, List.map_append]
    by_cases h : uriUnreserved c
    · rw [if_pos h]
      obtain ⟨hlt, hpc⟩ := uriUnreserved_props c h
      have hbytes : utf8Bytes c.toNat = [c.toNat] := by
        unfold utf8Bytes
        rw [if_pos (by omega)]
      rw [hbytes,
        show ([c] : List Char) ++ encodeURIComponent cs = c :: encodeURIComponent cs
          from rfl,
        unescape_cons_lit _ _ hpc, unescape_encodeURIComponent cs]
      simp [Char.ofNat_toNat]
    · rw [if_neg h]
      rw [unescape_pctBytes _ (utf8Bytes_lt_256 c.toNat (char_toNat_lt c)) _,
        unescape_encodeURIComponent cs]

theorem btoa_of_bytes (bytes : List Nat) (h : ∀ b ∈ bytes, b < 256) :
    btoa (bytes.map Char.ofNat) = some (b64Encode bytes) := by
  unfold btoa
  rw [if_pos (by
    rw [List.all_eq_true]
    intro c hc
    rw [List.mem_map] at hc
    obtain ⟨b, hb, rfl⟩ := hc
    rw [decide_eq_true_eq, toNat_ofNat_valid b (by have := h b hb; omega)]
    exact h b hb)]
  congr 1
  rw [List.map_map,
    List.map_congr_left (fun b hb => by
      show Char.toNat (Char.ofNat b) = id b
      rw [toNat_ofNat_valid b (by have := h b hb; omega)]
      rfl),
    List.map_id]

theorem b64_roundtrip : ∀ bs : List Nat, (∀ b ∈ bs, b < 256) →
    b64Decode (b64Encode bs) = some bs := by
  intro bs
  induction bs using b64Encode.induct with
  | case1 => intro; rfl
  | case2 b0 =>
    intro h
    have hb0 := h b0 (List.mem_cons_self _ _)
    have e0 : b64Val (b64Char (b0 / 4)) = some (b0 / 4) :=
      b64Val_b64Char _ (by omega)
    have e1 : b64Val (b64Char (b0 % 4 * 16)) = some (b0 % 4 * 16) :=
      b64Val_b64Char _ (by omega)
    simp only [b64Encode, b64Decode, e0, e1]
    rw [if_pos (by simp), if_pos (by omega)]
    have : b0 / 4 * 4 + b0 % 4 * 16 / 16 = b0 := by omega
    rw [this]
  | case3 b0 b1 =>
    intro h
    have hb0 := h b0 (List.mem_cons_self _ _)
    have hb1 := h b1 (List.mem_cons_of_mem _ (List.mem_cons_self _ _))
    have e0 : b64Val (b64Char (b0 / 4)) = some (b0 / 4) :=
      b64Val_b64Char _ (by omega)
    have e1 : b64Val (b64Char (b0 % 4 * 16 + b1 / 16))
        = some (b0 % 4 * 16 + b1 / 16) := b64Val_b64Char _ (by omega)
    have e2 : b64Val (b64Char (b1 % 16 * 4)) = some (b1 % 16 * 4) :=
      b64Val_b64Char _ (by omega)
    have hne : (b64Char (b1 % 16 * 4) == '=') = false :=
      b64Char_ne_eqSign _ (by omega)
    simp only [b64Encode, b64Decode]
    rw [if_neg (by simp [hne]), if_pos (by simp)]
    simp only [e0, e1, e2]
    rw [if_pos (by omega)]
    have h1 : b0 / 4 * 4 + (b0 % 4 * 16 + b1 / 16) / 16 = b0 := by omega
    have h2 : (b0 % 4 * 16 + b1 / 16) % 16 * 16 + b1 % 16 * 4 / 4 = b1 := by omega
    rw [h1, h2]
  | case4 b0 b1 b2 rest ih =>
    intro h
    have hb0 := h b0 (List.mem_cons_self _ _)
    have hb1 := h b1 (List.mem_cons_of_mem _ (List.mem_cons_self _ _))
    have hb2 := h b2 (List.mem_cons_of_mem _ (List.mem_cons_of_mem _
      (List.mem_cons_self _ _)))
    have hrest : ∀ b ∈ rest, b < 256 := fun b hb =>
      h b (List.mem_cons_of_mem _ (List.mem_cons_of_mem _ (List.mem_cons_of_mem _ hb)))
    have e0 : b64Val (b64Char (b0 / 4)) = some (b0 / 4) :=
      b64Val_b64Char _ (by omega)
    have e1 : b64Val (b64Char (b0 % 4 * 16 + b1 / 16))
        = some (b0 % 4 * 16 + b1 / 16) := b64Val_b64Char _ (by omega)
    have e2 : b64Val (b64Char (b1 % 16 * 4 + b2 / 64))
        = some (b1 % 16 * 4 + b2 / 64) := b64Val_b64Char _ (by omega)
    have e3 : b64Val (b64Char (b2 % 64)) = some (b2 % 64) :=
      b64Val_b64Char _ (by omega)
    have hne3 : (b64Char (b2 % 64) == '=') = false :=
      b64Char_ne_eqSign _ (by omega)
    simp only [b64Encode, b64Decode]
    rw [if_neg (by simp [hne3]), if_neg (by simp [hne3])]
    simp only [e0, e1, e2, e3, ih hrest, Option.map_some]
    have h1 : b0 / 4 * 4 + (b0 % 4 * 16 + b1 / 16) / 16 = b0 := by omega
    have h2 : (b0 % 4 * 16 + b1 / 16) % 16 * 16 + (b1 % 16 * 4 + b2 / 64) / 4 = b1 := by
      omega
    have h3 : (b1 % 16 * 4 + b2 / 64) % 4 * 64 + b2 % 64 = b2 := by omega
    rw [h1, h2, h3]
    rfl

theorem atob_b64Encode (bytes : List Nat) (h : ∀ b ∈ bytes, b < 256) :
    atob (b64Encode bytes) = some (bytes.map Char.ofNat) := by
  unfold atob
  rw [b64_roundtrip bytes h]
  rfl

theorem escape_cons (x : Char) (R : List Char) :
    escape (x :: R) =
      (if escapeLiteral x then [x]
       else if x.toNat < 256 then pctByte x.toNat
       else '%' :: 'u' :: hexDigit4 x.toNat) ++ escape R := by
  simp only [escape]

theorem escape_byteChar (b : Nat) (hb1 : 0x80 ≤ b) (hb2 : b < 256) (R : List Char) :
    escape (Char.ofNat b :: R) = pctByte b ++ escape R := by
  have hx : (Char.ofNat b).toNat = b := toNat_ofNat_valid _ (by omega)
  have hl : ¬(escapeLiteral (Char.ofNat b) = true) := by
    intro hq
    have hlt := (escapeLiteral_props _ hq).1
    rw [hx] at hlt
    omega
  rw [escape_cons, if_neg hl, if_pos (by rw [hx]; omega), hx]

theorem decU_cons_lit (c : Char) (rest : List Char) (h : c ≠ '%') :
    decodeURIComponent (c :: rest) = (decodeURIComponent rest).map (c :: ·) := by
  simp only [decodeURIComponent]
  rw [if_neg h]

theorem decU_pct (rest : List Char) (ch : Char) (k : Nat)
    (hpd : pctDecode ('%' :: rest) = some (ch, k)) :
    decodeURIComponent ('%' :: rest)
      = (decodeURIComponent (('%' :: rest).drop k)).map (ch :: ·) := by
  simp only [decodeURIComponent]
  rw [if_pos trivial]
  split
  · rename_i ch' k' heq
    rw [hpd] at heq
    injection heq with heq2
    injection heq2 with he1 he2
    rw [he1, he2]
  · rename_i heq
    rw [hpd] at heq
    exact absurd heq (by simp)

theorem pctHex_pctByte (b : Nat) (hb : b < 256) (R : List Char) :
    pctHex (pctByte b ++ R) = some (b, R) := by
  have h1 : hexVal (hexDigit (b / 16)) = some (b / 16) := hexVal_hexDigit _ (by omega)
  have h2 : hexVal (hexDigit (b % 16)) = some (b % 16) := hexVal_hexDigit _ (by omega)
  show pctHex ('%' :: hexDigit (b / 16) :: hexDigit (b % 16) :: R) = _
  simp only [pctHex, h1, h2]
  have harith : 16 * (b / 16) + b % 16 = b := by omega
  rw [harith]

theorem pctDecode_one (b : Nat) (hb : b < 0x80) (R : List Char) :
    pctDecode (pctByte b ++ R) = some (Char.ofNat b, 3) := by
  simp only [pctDecode, pctHex_pctByte b (by omega) R]
  rw [if_pos hb]

theorem pctDecode_two (n : Nat) (h1 : 0x80 ≤ n) (h2 : n < 0x800) (R : List Char) :
    pctDecode (pctByte (0xC0 + n / 64) ++ (pctByte (0x80 + n % 64) ++ R))
      = some (Char.ofNat n, 6) := by
  simp only [pctDecode, pctHex_pctByte (0xC0 + n / 64) (by omega) _,
    pctHex_pctByte (0x80 + n % 64) (by omega) R]
  rw [if_neg (by omega), if_pos (by omega), if_pos (by omega)]
  have harith : (0xC0 + n / 64 - 0xC0) * 64 + (0x80 + n % 64 - 0x80) = n := by omega
  rw [harith]

theorem pctDecode_three (n : Nat) (h1 : 0x800 ≤ n) (h2 : n < 0x10000)
    (h3 : ¬(0xD800 ≤ n ∧ n < 0xE000)) (R : List Char) :
    pctDecode (pctByte (0xE0 + n / 4096) ++ (pctByte (0x80 + n / 64 % 64) ++
        (pctByte (0x80 + n % 64) ++ R)))
      = some (Char.ofNat n, 9) := by
  simp only [pctDecode, pctHex_pctByte (0xE0 + n / 4096) (by omega) _,
    pctHex_pctByte (0x80 + n / 64 % 64) (by omega) _,
    pctHex_pctByte (0x80 + n % 64) (by omega) R]
  rw [if_neg (by omega), if_neg (by omega), if_pos (by omega),
    if_pos (by constructor <;> constructor <;> omega)]
  have harith : (0xE0 + n / 4096 - 0xE0) * 4096 + (0x80 + n / 64 % 64 - 0x80) * 64 +
      (0x80 + n % 64 - 0x80) = n := by omega
  rw [harith]
  rw [if_pos ⟨h1, h3⟩]

theorem pctDecode_four (n : Nat) (h1 : 0x10000 ≤ n) (h2 : n < 0x110000) (R : List Char) :
    pctDecode (pctByte (0xF0 + n / 0x40000) ++ (pctByte (0x80 + n / 4096 % 64) ++
        (pctByte (0x80 + n / 64 % 64) ++ (pctByte (0x80 + n % 64) ++ R))))
      = some (Char.ofNat n, 12) := by
  simp only [pctDecode, pctHex_pctByte (0xF0 + n / 0x40000) (by omega) _,
    pctHex_pctByte (0x80 + n / 4096 % 64) (by omega) _,
    pctHex_pctByte (0x80 + n / 64 % 64) (by omega) _,
    pctHex_pctByte (0x80 + n % 64) (by omega) R]
  rw [if_neg (by omega), if_neg (by omega), if_neg (by omega), if_pos (by omega),
    if_pos (by refine ⟨⟨?_, ?_⟩, ⟨?_, ?_⟩, ?_, ?_⟩ <;> omega)]
  have harith : (0xF0 + n / 0x40000 - 0xF0) * 0x40000 +
      (0x80 + n / 4096 % 64 - 0x80) * 4096 + (0x80 + n / 64 % 64 - 0x80) * 64 +
      (0x80 + n % 64 - 0x80) = n := by omega
  rw [harith]
  rw [if_pos ⟨h1, h2⟩]

theorem decU_escTok (c : Char) (R : List Char) (tl : List Char)
    (h : decodeURIComponent R = some tl) :
    decodeURIComponent (escape ((utf8Bytes c.toNat).map Char.ofNat) ++ R)
      = some (c :: tl) := by
  have hv := char_valid c
  by_cases h1 : c.toNat < 0x80
  · have hbytes : utf8Bytes c.toNat = [c.toNat] := by
      unfold utf8Bytes
      rw [if_pos h1]
    rw [hbytes]
    simp only [List.map]
    rw [Char.ofNat_toNat]
    by_cases hlit : escapeLiteral c
    · have hne : c ≠ '%' := (escapeLiteral_props c hlit).2
      rw [show escape [c] ++ R = c :: R from by
        rw [escape_cons, if_pos hlit]
        simp [escape]]
      rw [decU_cons_lit c R hne, h]
      rfl
    · have hpd' : pctDecode
          ('%' :: hexDigit (c.toNat / 16) :: hexDigit (c.toNat % 16) :: R)
          = some (Char.ofNat c.toNat, 3) := pctDecode_one c.toNat h1 R
      rw [show escape [c] ++ R = pctByte c.toNat ++ R from by
        rw [escape_cons, if_neg hlit, if_pos (by omega)]
        simp [escape]]
      show decodeURIComponent
          ('%' :: hexDigit (c.toNat / 16) :: hexDigit (c.toNat % 16) :: R) = _
      rw [decU_pct _ _ _ hpd']
      rw [show List.drop 3
          ('%' :: hexDigit (c.toNat / 16) :: hexDigit (c.toNat % 16) :: R) = R from rfl]
      rw [h, Char.ofNat_toNat]
      rfl
  · by_cases h2 : c.toNat < 0x800
    · have hbytes : utf8Bytes c.toNat = [0xC0 + c.toNat / 64, 0x80 + c.toNat % 64] := by
        unfold utf8Bytes
        rw [if_neg (by omega), if_pos h2]
      rw [hbytes]
      simp only [List.map]
      rw [show [Char.ofNat (0xC0 + c.toNat / 64), Char.ofNat (0x80 + c.toNat % 64)]
          = Char.ofNat (0xC0 + c.toNat / 64) :: Char.ofNat (0x80 + c.toNat % 64) :: []
          from rfl,
        escape_byteChar _ (by omega) (by omega),
        escape_byteChar _ (by omega) (by omega)]
      rw [show (pctByte (0xC0 + c.toNat / 64) ++ (pctByte (0x80 + c.toNat % 64) ++
          escape [])) ++ R
          = pctByte (0xC0 + c.toNat / 64) ++ (pctByte (0x80 + c.toNat % 64) ++ R) from by
        simp [escape]]
      have hpd' : pctDecode ('%' :: hexDigit ((0xC0 + c.toNat / 64) / 16) ::
          hexDigit ((0xC0 + c.toNat / 64) % 16) :: (pctByte (0x80 + c.toNat % 64) ++ R))
          = some (Char.ofNat c.toNat, 6) := pctDecode_two c.toNat (by omega) h2 R
      show decodeURIComponent ('%' :: hexDigit ((0xC0 + c.toNat / 64) / 16) ::
          hexDigit ((0xC0 + c.toNat / 64) % 16) ::
          (pctByte (0x80 + c.toNat % 64) ++ R)) = _
      rw [decU_pct _ _ _ hpd']
      rw [show List.drop 6 ('%' :: hexDigit ((0xC0 + c.toNat / 64) / 16) ::
          hexDigit ((0xC0 + c.toNat / 64) % 16) ::
          (pctByte (0x80 + c.toNat % 64) ++ R)) = R from rfl]
      rw [h, Char.ofNat_toNat]
      rfl
    · by_cases h3 : c.toNat < 0x10000
      · have hsur : ¬(0xD800 ≤ c.toNat ∧ c.toNat < 0xE000) := by
          rcases hv with hva | ⟨hva, hvb⟩ <;> omega
        have hbytes : utf8Bytes c.toNat
            = [0xE0 + c.toNat / 4096, 0x80 + c.toNat / 64 % 64, 0x80 + c.toNat % 64] := by
          unfold utf8Bytes
          rw [if_neg (by omega), if_neg (by omega), if_pos h3]
        rw [hbytes]
        simp only [List.map]
        rw [show [Char.ofNat (0xE0 + c.toNat / 4096), Char.ofNat (0x80 + c.toNat / 64 % 64),
            Char.ofNat (0x80 + c.toNat % 64)]
            = Char.ofNat (0xE0 + c.toNat / 4096) :: Char.ofNat (0x80 + c.toNat / 64 % 64) ::
              Char.ofNat (0x80 + c.toNat % 64) :: [] from rfl,
          escape_byteChar _ (by omega) (by omega),
          escape_byteChar _ (by omega) (by omega),
          escape_byteChar _ (by omega) (by omega)]
        rw [show (pctByte (0xE0 + c.toNat / 4096) ++ (pctByte (0x80 + c.toNat / 64 % 64) ++
            (pctByte (0x80 + c.toNat % 64) ++ escape []))) ++ R
            = pctByte (0xE0 + c.toNat / 4096) ++ (pctByte (0x80 + c.toNat / 64 % 64) ++
              (pctByte (0x80 + c.toNat % 64) ++ R)) from by simp [escape]]
        have hpd' : pctDecode ('%' :: hexDigit ((0xE0 + c.toNat / 4096) / 16) ::
            hexDigit ((0xE0 + c.toNat / 4096) % 16) ::
            (pctByte (0x80 + c.toNat / 64 % 64) ++ (pctByte (0x80 + c.toNat % 64) ++ R)))
            = some (Char.ofNat c.toNat, 9) := pctDecode_three c.toNat (by omega) h3 hsur R
        show decodeURIComponent ('%' :: hexDigit ((0xE0 + c.toNat / 4096) / 16) ::
            hexDigit ((0xE0 + c.toNat / 4096) % 16) ::
            (pctByte (0x80 + c.toNat / 64 % 64) ++ (pctByte (0x80 + c.toNat % 64) ++ R))) = _
        rw [decU_pct _ _ _ hpd']
        rw [show List.drop 9 ('%' :: hexDigit ((0xE0 + c.toNat / 4096) / 16) ::
            hexDigit ((0xE0 + c.toNat / 4096) % 16) ::
            (pctByte (0x80 + c.toNat / 64 % 64) ++
              (pctByte (0x80 + c.toNat % 64) ++ R))) = R from rfl]
        rw [h, Char.ofNat_toNat]
        rfl
      · have hbytes : utf8Bytes c.toNat
            = [0xF0 + c.toNat / 0x40000, 0x80 + c.toNat / 4096 % 64,
              0x80 + c.toNat / 64 % 64, 0x80 + c.toNat % 64] := by
          unfold utf8Bytes
          rw [if_neg (by omega), if_neg (by omega), if_neg (by omega)]
        have hlt := char_toNat_lt c
        rw [hbytes]
        simp only [List.map]
        rw [show [Char.ofNat (0xF0 + c.toNat / 0x40000),
            Char.ofNat (0x80 + c.toNat / 4096 % 64),
            Char.ofNat (0x80 + c.toNat / 64 % 64), Char.ofNat (0x80 + c.toNat % 64)]
            = Char.ofNat (0xF0 + c.toNat / 0x40000) ::
              Char.ofNat (0x80 + c.toNat / 4096 % 64) ::
              Char.ofNat (0x80 + c.toNat / 64 % 64) ::
              Char.ofNat (0x80 + c.toNat % 64) :: [] from rfl,
          escape_byteChar _ (by omega) (by omega),
          escape_byteChar _ (by omega) (by omega),
          escape_byteChar _ (by omega) (by omega),
          escape_byteChar _ (by omega) (by omega)]
        rw [show (pctByte (0xF0 + c.toNat / 0x40000) ++
            (pctByte (0x80 + c.toNat / 4096 % 64) ++ (pctByte (0x80 + c.toNat / 64 % 64) ++
              (pctByte (0x80 + c.toNat % 64) ++ escape [])))) ++ R
            = pctByte (0xF0 + c.toNat / 0x40000) ++
              (pctByte (0x80 + c.toNat / 4096 % 64) ++ (pctByte (0x80 + c.toNat / 64 % 64) ++
                (pctByte (0x80 + c.toNat % 64) ++ R))) from by simp [escape]]
        have hpd' : pctDecode ('%' :: hexDigit ((0xF0 + c.toNat / 0x40000) / 16) ::
            hexDigit ((0xF0 + c.toNat / 0x40000) % 16) ::
            (pctByte (0x80 + c.toNat / 4096 % 64) ++ (pctByte (0x80 + c.toNat / 64 % 64) ++
              (pctByte (0x80 + c.toNat % 64) ++ R))))
            = some (Char.ofNat c.toNat, 12) := pctDecode_four c.toNat (by omega) hlt R
        show decodeURIComponent ('%' :: hexDigit ((0xF0 + c.toNat / 0x40000) / 16) ::
            hexDigit ((0xF0 + c.toNat / 0x40000) % 16) ::
            (pctByte (0x80 + c.toNat / 4096 % 64) ++ (pctByte (0x80 + c.toNat / 64 % 64) ++
              (pctByte (0x80 + c.toNat % 64) ++ R)))) = _
        rw [decU_pct _ _ _ hpd']
        rw [show List.drop 12 ('%' :: hexDigit ((0xF0 + c.toNat / 0x40000) / 16) ::
            hexDigit ((0xF0 + c.toNat / 0x40000) % 16) ::
            (pctByte (0x80 + c.toNat / 4096 % 64) ++ (pctByte (0x80 + c.toNat / 64 % 64) ++
              (pctByte (0x80 + c.toNat % 64) ++ R)))) = R from rfl]
        rw [h, Char.ofNat_toNat]
        rfl

theorem escape_append : ∀ (a b : List Char), escape (a ++ b) = escape a ++ escape b
  | [], b => rfl
  | c :: a, b => by
    rw [List.cons_append, escape_cons, escape_cons, escape_append a b,
      List.append_assoc]

theorem decU_escape : ∀ l : List Char, ∀ rest tl : List Char,
    decodeURIComponent rest = some tl →
    decodeURIComponent (escape ((utf8Str l).map Char.ofNat) ++ rest) = some (l ++ tl)
  | [], rest, tl, h => by simpa [utf8Str, escape] using h
  | c :: cs, rest, tl, h => by
    have hesc : escape ((utf8Str (c :: cs)).map Char.ofNat)
        = escape ((utf8Bytes c.toNat).map Char.ofNat) ++
          escape ((utf8Str cs).map Char.ofNat) := by
      rw [show utf8Str (c :: cs) = utf8Bytes c.toNat ++ utf8Str cs from rfl,
        List.map_append]
      exact escape_append _ _
    rw [hesc, List.append_assoc,
      decU_escTok c _ (cs ++ tl) (decU_escape cs rest tl h)]
    rfl

/-! ### The markdown rendering pipeline of `convertMarkdownToHTML`
(response-template.js lines 23–136)

Each global regex replace of the source is embedded as a left-to-right
scanner over the character list, reproducing the concrete pattern's
JavaScript matching semantics: a failed match attempt advances one
character; a successful match emits the replacement and resumes after the
matched text; greedy and lazy quantifier extents are resolved as the
backtracking engine would (argued case by case in the comments). -/

theorem splitFirst_after_le (pat : List Char) :
    ∀ (l b a : List Char), splitFirst pat l = some (b, a) → a.length ≤ l.length := by
  intro l
  induction l with
  | nil =>
    intro b a h
    unfold splitFirst at h
    split at h
    · injection h with h2
      injection h2 with h3 h4
      rw [← h4]
    · exact absurd h (by simp)
  | cons c cs ih =>
    intro b a h
    unfold splitFirst at h
    split at h
    · injection h with h2
      injection h2 with h3 h4
      rw [← h4]
      simp [List.length_drop]
    · split at h
      · rename_i b1 a1 hp
        injection h with h2
        injection h2 with h3 h4
        rw [← h4]
        have := ih b1 a1 hp
        simp only [List.length_cons]
        omega
      · exact absurd h (by simp)

/-- Count of (possibly overlapping) occurrences of `pat` in `l`. -/
def subCount (pat : List Char) : List Char → Nat
  | [] => 0
  | c :: cs => (if begMatch pat (c :: cs) then 1 else 0) + subCount pat cs

/-- Global single-character replace (`s.replace(/X/g, rep)`). -/
def chReplace (t : Char) (rep : List Char) : List Char → List Char
  | [] => []
  | c :: rest => (if c = t then rep else [c]) ++ chReplace t rep rest

/-- Global replace of a literal (regex-special-free) pattern.
The scanners of this development that advance by more than one character
per step recurse on a structural fuel argument so that the kernel can
evaluate them on concrete inputs; the wrapper passes the input length as
fuel, which suffices because every step consumes at least one
character. -/
def replaceAllLitGo (pat rep : List Char) : Nat → List Char → List Char
  | _, [] => []
  | 0, l => l
  | fuel + 1, c :: rest =>
    if !pat.isEmpty && begMatch pat (c :: rest) then
      rep ++ replaceAllLitGo pat rep fuel ((c :: rest).drop pat.length)
    else c :: replaceAllLitGo pat rep fuel rest

def replaceAllLit (pat rep l : List Char) : List Char :=
  replaceAllLitGo pat rep l.length l

/-- Escaping of the five HTML metacharacters, in the source's order
(response-template.js lines 49–54, response-formatter.js lines 16–25). -/
def escapeHtml (s : List Char) : List Char :=
  chReplace sq (str "&#039;")
    (chReplace '"' (str "&quot;")
      (chReplace '>' (str "&gt;")
        (chReplace '<' (str "&lt;")
          (chReplace '&' (str "&amp;") s))))

/-- Regex word character (the backslash-w class). -/
def isWordChar (c : Char) : Bool :=
  (65 ≤ c.toNat && c.toNat ≤ 90) || (97 ≤ c.toNat && c.toNat ≤ 122) ||
    (48 ≤ c.toNat && c.toNat ≤ 57) || c == '_'

def isDigitCh (c : Char) : Bool := 48 ≤ c.toNat && c.toNat ≤ 57

def isAsciiLetter (c : Char) : Bool :=
  (65 ≤ c.toNat && c.toNat ≤ 90) || (97 ≤ c.toNat && c.toNat ≤ 122)

/-- Identifier head/tail classes of the function-name regexes
(`$` is allowed by the JavaScript rule but not the Python one). -/
def isIdentStart (dollar : Bool) (c : Char) : Bool :=
  isAsciiLetter c || c == '_' || (dollar && c == '$')

def isIdentCh (dollar : Bool) (c : Char) : Bool :=
  isIdentStart dollar c || isDigitCh c

def spanOpen (cls : List Char) : List Char := str "<span class=\"" ++ cls ++ str "\">"

def spanClose : List Char := str "</span>"

/-- First keyword of `kws` (in alternation order) that matches at the
head of `l` with a word boundary after it. -/
def tryKeyword (kws : List (List Char)) (l : List Char) : Option (List Char) :=
  match kws with
  | [] => none
  | k :: rest =>
    if !k.isEmpty && begMatch k l &&
        (match (l.drop k.length).head? with
         | some c => !isWordChar c
         | none => true) then
      some k
    else tryKeyword rest l

theorem tryKeyword_length (kws : List (List Char)) :
    ∀ (l k : List Char), tryKeyword kws l = some k → 1 ≤ k.length := by
  induction kws with
  | nil => intro l k h; simp [tryKeyword] at h
  | cons k0 rest ih =>
    intro l k h
    unfold tryKeyword at h
    split at h
    · rename_i hc
      injection h with h2
      rw [← h2]
      simp only [Bool.and_eq_true] at hc
      have := hc.1.1
      cases k0 with
      | nil => simp at this
      | cons a as => simp
    · exact ih l k h

/-- Keyword pass: `\b(k1|k2|…)\b` wrapped in a class span.  The scanner
carries whether the previous character was a word character (the word
boundary test); keywords start with word characters, so a boundary holds
iff the previous character is not one. -/
def kwScanGo (kws : List (List Char)) (cls : List Char) :
    Nat → Bool → List Char → List Char
  | _, _, [] => []
  | 0, _, l => l
  | fuel + 1, prevW, c :: rest =>
    match tryKeyword kws (c :: rest), prevW with
    | some k, false =>
      spanOpen cls ++ k ++ spanClose ++
        kwScanGo kws cls fuel true (rest.drop (k.length - 1))
    | _, _ => c :: kwScanGo kws cls fuel (isWordChar c) rest

def kwScan (kws : List (List Char)) (cls : List Char) (prevW : Bool)
    (l : List Char) : List Char :=
  kwScanGo kws cls l.length prevW l

/-- Function-name pass:
an identifier (longest run) followed by optional whitespace with a
lookahead for `(`; the match consumes identifier and whitespace and is
replaced by a span around the identifier alone.  A shorter identifier
cannot match instead (the following character would be an identifier
character, not whitespace or `(`), so the longest run is the only
candidate. -/
def funcScanGo (dollar : Bool) (cls : List Char) :
    Nat → Bool → List Char → List Char
  | _, _, [] => []
  | 0, _, l => l
  | fuel + 1, prevW, c :: rest =>
    if isIdentStart dollar c && (prevW != isWordChar c) then
      let idTail := rest.takeWhile (isIdentCh dollar)
      let after := rest.drop idTail.length
      let wsRun := after.takeWhile jsWS
      let after2 := after.drop wsRun.length
      if after2.head? = some '(' then
        spanOpen cls ++ (c :: idTail) ++ spanClose ++
          funcScanGo dollar cls fuel
            (if wsRun.isEmpty then
              (match (c :: idTail).getLast? with
               | some x => isWordChar x
               | none => false)
             else false) after2
      else c :: funcScanGo dollar cls fuel (isWordChar c) rest
    else c :: funcScanGo dollar cls fuel (isWordChar c) rest

def funcScan (dollar : Bool) (cls : List Char) (prevW : Bool)
    (l : List Char) : List Char :=
  funcScanGo dollar cls l.length prevW l

/-- Line-comment pass (`//…` or `#…` to end of line, multiline flag). -/
def lineCommentScanGo (marker cls : List Char) : Nat → List Char → List Char
  | _, [] => []
  | 0, l => l
  | fuel + 1, c :: rest =>
    if begMatch marker (c :: rest) then
      let content := rest.takeWhile (fun x => !(x == '\n'))
      spanOpen cls ++ (c :: content) ++ spanClose ++
        lineCommentScanGo marker cls fuel (rest.drop content.length)
    else c :: lineCommentScanGo marker cls fuel rest

def lineCommentScan (marker cls l : List Char) : List Char :=
  lineCommentScanGo marker cls l.length l

/-- Block-comment pass (`/*…*/`, lazy body = everything up to the first
closing delimiter). -/
def blockCommentScanGo (cls : List Char) : Nat → List Char → List Char
  | _, [] => []
  | 0, l => l
  | fuel + 1, c :: rest =>
    if begMatch (str "/*") (c :: rest) then
      match splitFirst (str "*/") (rest.drop 1) with
      | some (mid, after) =>
        spanOpen cls ++ (str "/*" ++ mid ++ str "*/") ++ spanClose ++
          blockCommentScanGo cls fuel after
      | none => c :: blockCommentScanGo cls fuel rest
    else c :: blockCommentScanGo cls fuel rest

def blockCommentScan (cls l : List Char) : List Char :=
  blockCommentScanGo cls l.length l

/-- Lazy string body: the shortest sequence of escaped pairs and
non-quote characters followed by the closing quote `q`
(the regex `(['"\x60])((?:\\.|(?!\1)[^\\])*?)\1`). -/
def strBody (q : Char) : List Char → Option (List Char × List Char)
  | [] => none
  | [c] => if c = q then some ([], []) else none
  | c :: d :: rest2 =>
    if c = q then some ([], d :: rest2)
    else if c = '\\' then
      if d = '\n' then none
      else (strBody q rest2).map (fun p => (c :: d :: p.1, p.2))
    else (strBody q (d :: rest2)).map (fun p => (c :: p.1, p.2))

theorem strBody_after_le_aux (q : Char) :
    ∀ (n : Nat) (l mid a : List Char), l.length ≤ n →
      strBody q l = some (mid, a) → a.length ≤ l.length := by
  intro n
  induction n with
  | zero =>
    intro l mid a hl h
    cases l with
    | nil => simp [strBody] at h
    | cons c rest => simp at hl
  | succ n ih =>
    intro l mid a hl h
    match l with
    | [] => simp [strBody] at h
    | [c] =>
      simp only [strBody] at h
      split at h
      · injection h with h2
        injection h2 with h3 h4
        rw [← h4]
        simp
      · simp at h
    | c :: d :: rest2 =>
      simp only [strBody] at h
      by_cases hq : c = q
      · rw [if_pos hq] at h
        injection h with h2
        injection h2 with h3 h4
        rw [← h4]
        simp
      · rw [if_neg hq] at h
        by_cases hb : c = '\\'
        · rw [if_pos hb] at h
          by_cases hd : d = '\n'
          · rw [if_pos hd] at h; simp at h
          rw [if_neg hd] at h
          cases hsb : strBody q rest2 with
          | none => rw [hsb] at h; simp at h
          | some p =>
            rw [hsb] at h
            simp only [Option.map_some'] at h
            injection h with h2
            injection h2 with h3 h4
            have hrec := ih rest2 p.1 p.2
              (by simp only [List.length_cons] at hl ⊢; omega) (by rw [hsb])
            rw [← h4]
            simp only [List.length_cons]
            omega
        · rw [if_neg hb] at h
          cases hsb : strBody q (d :: rest2) with
          | none => rw [hsb] at h; simp at h
          | some p =>
            rw [hsb] at h
            simp only [Option.map_some'] at h
            injection h with h2
            injection h2 with h3 h4
            have hrec := ih (d :: rest2) p.1 p.2
              (by simp only [List.length_cons] at hl ⊢; omega) (by rw [hsb])
            rw [← h4]
            simp only [List.length_cons] at hrec ⊢
            omega

theorem strBody_after_le (q : Char) (l mid a : List Char)
    (h : strBody q l = some (mid, a)) : a.length ≤ l.length :=
  strBody_after_le_aux q l.length l mid a le_rfl h

def isQuote (c : Char) : Bool := c == '"' || c == sq || c == bq

/-- String-literal pass: a quote, a lazily matched escape-aware body, and
the matching closing quote, the whole match wrapped in a span. -/
def stringScanGo (cls : List Char) : Nat → List Char → List Char
  | _, [] => []
  | 0, l => l
  | fuel + 1, c :: rest =>
    if isQuote c then
      match strBody c rest with
      | some (mid, after) =>
        spanOpen cls ++ (c :: (mid ++ [c])) ++ spanClose ++
          stringScanGo cls fuel after
      | none => c :: stringScanGo cls fuel rest
    else c :: stringScanGo cls fuel rest

def stringScan (cls l : List Char) : List Char :=
  stringScanGo cls l.length l

/-- Number pass `\b(\d+(?:\.\d+)?)\b`: a digit run with an optional
fraction; if the boundary after the fraction fails the engine falls back
to the integer part alone (whose following `.` is a boundary). -/
def numScanGo (cls : List Char) : Nat → Bool → List Char → List Char
  | _, _, [] => []
  | 0, _, l => l
  | fuel + 1, prevW, c :: rest =>
    if isDigitCh c && !prevW then
      let ds := rest.takeWhile isDigitCh
      let after := rest.drop ds.length
      if after.head? = some '.' &&
          !((after.drop 1).takeWhile isDigitCh).isEmpty &&
          (match ((after.drop 1).drop
              ((after.drop 1).takeWhile isDigitCh).length).head? with
           | some x => !isWordChar x
           | none => true) then
        spanOpen cls ++ (c :: ds ++ '.' :: (after.drop 1).takeWhile isDigitCh) ++
          spanClose ++
          numScanGo cls fuel true ((after.drop 1).drop
            ((after.drop 1).takeWhile isDigitCh).length)
      else if (match after.head? with
           | some x => !isWordChar x
           | none => true) then
        spanOpen cls ++ (c :: ds) ++ spanClose ++ numScanGo cls fuel true after
      else c :: numScanGo cls fuel true rest
    else c :: numScanGo cls fuel (isWordChar c) rest

def numScan (cls : List Char) (prevW : Bool) (l : List Char) : List Char :=
  numScanGo cls l.length prevW l

/-- Python triple-quoted docstring pass
(`"""[\s\S]*?"""` or `'''[\s\S]*?'''`, alternation in that order). -/
def docstringScanGo (cls : List Char) : Nat → List Char → List Char
  | _, [] => []
  | 0, l => l
  | fuel + 1, c :: rest =>
    if begMatch (str "\"\"\"") (c :: rest) then
      match splitFirst (str "\"\"\"") (rest.drop 2) with
      | some (mid, after) =>
        spanOpen cls ++ (str "\"\"\"" ++ mid ++ str "\"\"\"") ++ spanClose ++
          docstringScanGo cls fuel after
      | none => c :: docstringScanGo cls fuel rest
    else if begMatch [sq, sq, sq] (c :: rest) then
      match splitFirst [sq, sq, sq] (rest.drop 2) with
      | some (mid, after) =>
        spanOpen cls ++ ([sq, sq, sq] ++ mid ++ [sq, sq, sq]) ++ spanClose ++
          docstringScanGo cls fuel after
      | none => c :: docstringScanGo cls fuel rest
    else c :: docstringScanGo cls fuel rest

def docstringScan (cls l : List Char) : List Char :=
  docstringScanGo cls l.length l

/-- Complement of the quirky class of the tag regex
(`[^&gt;]` excludes the four characters ampersand, g, t, semicolon). -/
def notGtCl (c : Char) : Bool := !(c == '&' || c == 'g' || c == 't' || c == ';')

/-- HTML tag pass (`(&lt;\/?[a-zA-Z][^&gt;]*&gt;)`). -/
def htmlTagScanGo (cls : List Char) : Nat → List Char → List Char
  | _, [] => []
  | 0, l => l
  | fuel + 1, c :: rest =>
    if c = '&' ∧ begMatch (str "lt;") rest then
      let r0 := rest.drop 3
      let slash : List Char := if r0.head? = some '/' then ['/'] else []
      let r1 := r0.drop slash.length
      match r1.head? with
      | some a =>
        if isAsciiLetter a then
          let run := (r1.drop 1).takeWhile notGtCl
          let r2 := (r1.drop 1).drop run.length
          if begMatch (str "&gt;") r2 then
            spanOpen cls ++
              (str "&lt;" ++ slash ++ a :: run ++ str "&gt;") ++ spanClose ++
              htmlTagScanGo cls fuel (r2.drop 4)
          else c :: htmlTagScanGo cls fuel rest
        else c :: htmlTagScanGo cls fuel rest
      | none => c :: htmlTagScanGo cls fuel rest
    else c :: htmlTagScanGo cls fuel rest

def htmlTagScan (cls l : List Char) : List Char :=
  htmlTagScanGo cls l.length l

def isAttrCh (c : Char) : Bool := isAsciiLetter c || c == '-'

/-- Attribute pass (`\b([a-zA-Z-]+)(?==)`); the lookahead is not consumed. -/
def attrScanGo (cls : List Char) : Nat → Bool → List Char → List Char
  | _, _, [] => []
  | 0, _, l => l
  | fuel + 1, prevW, c :: rest =>
    if isAttrCh c && (prevW != isWordChar c) then
      let run := rest.takeWhile isAttrCh
      let after := rest.drop run.length
      if after.head? = some '=' then
        spanOpen cls ++ (c :: run) ++ spanClose ++
          attrScanGo cls fuel
            (match (c :: run).getLast? with
             | some x => isWordChar x
             | none => false) after
      else c :: attrScanGo cls fuel (isWordChar c) rest
    else c :: attrScanGo cls fuel (isWordChar c) rest

def attrScan (cls l : List Char) : List Char :=
  attrScanGo cls l.length false l

/-- Attribute-value pass (`(=['"\x60][^'"\x60]*['"\x60])`); the closing
quote need not equal the opening one. -/
def valueScanGo (cls : List Char) : Nat → List Char → List Char
  | _, [] => []
  | 0, l => l
  | fuel + 1, c :: rest =>
    if c = '=' then
      match rest.head? with
      | some q1 =>
        if isQuote q1 then
          let run := (rest.drop 1).takeWhile (fun x => !isQuote x)
          let r2 := (rest.drop 1).drop run.length
          match r2.head? with
          | some q2 =>
            if isQuote q2 then
              spanOpen cls ++ ('=' :: q1 :: run ++ [q2]) ++ spanClose ++
                valueScanGo cls fuel (r2.drop 1)
            else c :: valueScanGo cls fuel rest
          | none => c :: valueScanGo cls fuel rest
        else c :: valueScanGo cls fuel rest
      | none => c :: valueScanGo cls fuel rest
    else c :: valueScanGo cls fuel rest

def valueScan (cls l : List Char) : List Char :=
  valueScanGo cls l.length l

def isCssIdentCh (c : Char) : Bool :=
  isAsciiLetter c || isDigitCh c || c == '-' || c == '_'

/-- CSS selector pass (`([.#]?[a-zA-Z][a-zA-Z0-9-_]*)\s*\x7b` replaced by
the span, a space and the brace). -/
def cssSelScanGo : Nat → List Char → List Char
  | _, [] => []
  | 0, l => l
  | fuel + 1, c :: rest =>
    if c = '.' ∨ c = '#' then
      match rest.head? with
      | some a =>
        if isAsciiLetter a then
          let run := (rest.drop 1).takeWhile isCssIdentCh
          let afterSel := (rest.drop 1).drop run.length
          let ws := afterSel.takeWhile jsWS
          let r2 := afterSel.drop ws.length
          if r2.head? = some (Char.ofNat 123) then
            spanOpen (str "css-selector") ++ (c :: a :: run) ++ spanClose ++
              (' ' :: [Char.ofNat 123]) ++ cssSelScanGo fuel (r2.drop 1)
          else c :: cssSelScanGo fuel rest
        else c :: cssSelScanGo fuel rest
      | none => c :: cssSelScanGo fuel rest
    else if isAsciiLetter c then
      let run := rest.takeWhile isCssIdentCh
      let afterSel := rest.drop run.length
      let ws := afterSel.takeWhile jsWS
      let r2 := afterSel.drop ws.length
      if r2.head? = some (Char.ofNat 123) then
        spanOpen (str "css-selector") ++ (c :: run) ++ spanClose ++
          (' ' :: [Char.ofNat 123]) ++ cssSelScanGo fuel (r2.drop 1)
      else c :: cssSelScanGo fuel rest
    else c :: cssSelScanGo fuel rest

def cssSelScan (l : List Char) : List Char := cssSelScanGo l.length l

/-- CSS property pass (`([a-zA-Z-]+)\s*:` replaced by the span and the
colon, dropping the whitespace). -/
def cssPropScanGo : Nat → List Char → List Char
  | _, [] => []
  | 0, l => l
  | fuel + 1, c :: rest =>
    if isAttrCh c then
      let run := rest.takeWhile isAttrCh
      let after := rest.drop run.length
      let ws := after.takeWhile jsWS
      let r2 := after.drop ws.length
      if r2.head? = some ':' then
        spanOpen (str "css-property") ++ (c :: run) ++ spanClose ++ [':'] ++
          cssPropScanGo fuel (r2.drop 1)
      else c :: cssPropScanGo fuel rest
    else c :: cssPropScanGo fuel rest

def cssPropScan (l : List Char) : List Char := cssPropScanGo l.length l

/-- CSS value pass (`(:)(\s*[^;]+)(;)` rebuilt as colon, span around the
value run, semicolon). -/
def cssValueScanGo : Nat → List Char → List Char
  | _, [] => []
  | 0, l => l
  | fuel + 1, c :: rest =>
    if c = ':' then
      let body := rest.takeWhile (fun x => !(x == ';'))
      let after := rest.drop body.length
      if !body.isEmpty && after.head? == some ';' then
        ':' :: (spanOpen (str "css-value") ++ body ++ spanClose ++ [';']) ++
          cssValueScanGo fuel (after.drop 1)
      else c :: cssValueScanGo fuel rest
    else c :: cssValueScanGo fuel rest

def cssValueScan (l : List Char) : List Char := cssValueScanGo l.length l

def jsKeywords : List (List Char) :=
  [str "let", str "const", str "var", str "function", str "return",
   str "if", str "else", str "for", str "while", str "switch", str "case",
   str "break", str "continue", str "new", str "this", str "class",
   str "import", str "export", str "from", str "try", str "catch",
   str "throw", str "async", str "await", str "typeof", str "instanceof"]

def pyKeywords : List (List Char) :=
  [str "def", str "class", str "if", str "elif", str "else", str "for",
   str "while", str "try", str "except", str "finally", str "with",
   str "import", str "from", str "as", str "return", str "yield",
   str "break", str "continue", str "pass", str "lambda", str "and",
   str "or", str "not", str "in", str "is", str "True", str "False",
   str "None", str "async", str "await"]

/-- The six sequential JavaScript highlighting replaces
(response-template.js lines 58–64). -/
def jsHighlight (s : List Char) : List Char :=
  numScan (str "js-number") false
    (stringScan (str "js-string")
      (blockCommentScan (str "js-comment")
        (lineCommentScan (str "//") (str "js-comment")
          (funcScan true (str "js-function") false
            (kwScan jsKeywords (str "js-keyword") false s)))))

/-- The six sequential Python highlighting replaces (lines 69–75). -/
def pyHighlight (s : List Char) : List Char :=
  numScan (str "py-number") false
    (stringScan (str "py-string")
      (docstringScan (str "py-docstring")
        (lineCommentScan (str "#") (str "py-comment")
          (funcScan false (str "py-function") false
            (kwScan pyKeywords (str "py-keyword") false s)))))

/-- The three sequential HTML highlighting replaces (lines 80–83). -/
def htmlHighlight (s : List Char) : List Char :=
  valueScan (str "html-value")
    (attrScan (str "html-attribute") (htmlTagScan (str "html-tag") s))

/-- The four sequential CSS highlighting replaces (lines 88–92). -/
def cssHighlight (s : List Char) : List Char :=
  cssValueScan (blockCommentScan (str "css-comment")
    (cssPropScan (cssSelScan s)))

/-- Segments of the code-block template literal (lines 99–113), split at
its placeholders. -/
def tplA : List Char := str "\n            <div class=\"code-block-container\">\n                <div class=\"code-block-header\">\n                    <span class=\"code-language\">"

def tplB : List Char := str "</span>\n                    <button class=\"copy-code-button\" onclick=\"copyCodeBlock(\x27"

def tplC : List Char := str "\x27)\" data-tooltip=\"Copy code\">\n                        <svg xmlns=\"http://www.w3.org/2000/svg\" width=\"16\" height=\"16\" viewBox=\"0 0 24 24\" fill=\"none\" stroke=\"currentColor\" stroke-width=\"2\" stroke-linecap=\"round\" stroke-linejoin=\"round\">\n                            <rect x=\"9\" y=\"9\" width=\"13\" height=\"13\" rx=\"2\" ry=\"2\"></rect>\n                            <path d=\"M5 15H4a2 2 0 0 1-2-2V4a2 2 0 0 1 2-2h9a2 2 0 0 1 2 2v1\"></path>\n                        </svg>\n                        Copy\n                    </button>\n                </div>\n                <pre><code id=\""

def tplD : List Char := str "\" class=\"language-"

def tplE : List Char := str "\" data-original-code=\""

def tplF : List Char := str "\">"

def tplG : List Char := str "</code></pre>\n            </div>\n        "

def dropNlBeg (l : List Char) : List Char := l.dropWhile (fun c => c == '\n')

def dropNlEnd (l : List Char) : List Char :=
  (l.reverse.dropWhile (fun c => c == '\n')).reverse

/-- The fence-replacement callback (lines 28–113): split language from
body at the first line break when positive, strip leading/trailing
newline runs, escape, optionally highlight, encode the raw content, and
instantiate the template.  The random block id is a parameter.  The
stored attribute `btoa(unescape(encodeURIComponent(originalCode)))` is
written here in the equal form `b64Encode (utf8Str originalCode)`
(see `encodeStored_eval`), which the kernel can evaluate. -/
def buildCodeBlock (id code : List Char) : List Char :=
  let fl := code.findIdx? (fun c => c == '\n')
  let language : List Char :=
    match fl with
    | some k => if 0 < k then jsTrim (code.take k) else []
    | none => []
  let content0 : List Char :=
    match fl with
    | some k => if 0 < k then code.drop (k + 1) else code
    | none => code
  let codeContent := dropNlEnd (dropNlBeg content0)
  let originalCode := codeContent
  let lower := language.map Char.toLower
  let escaped := escapeHtml codeContent
  let formattedCode :=
    if lower = str "javascript" ∨ lower = str "js" then jsHighlight escaped
    else if lower = str "python" ∨ lower = str "py" then pyHighlight escaped
    else if lower = str "html" ∨ lower = str "xml" then htmlHighlight escaped
    else if lower = str "css" then cssHighlight escaped
    else escaped
  let encodedOriginalCode := b64Encode (utf8Str originalCode)
  tplA ++ (if language.isEmpty then str "code" else language) ++
    tplB ++ id ++ tplC ++ id ++ tplD ++ language ++ tplE ++
    encodedOriginalCode ++ tplF ++ formattedCode ++ tplG

/-- The encoding `btoa(unescape(encodeURIComponent(code)))` stored by
the fence callback always succeeds and equals the base64 of the UTF-8
bytes of the code, the form used in `buildCodeBlock`. -/
theorem encodeStored_eval (code : List Char) :
    encodeStored code = some (b64Encode (utf8Str code)) := by
  unfold encodeStored
  rw [unescape_encodeURIComponent]
  exact btoa_of_bytes _ (utf8Str_lt_256 code)

def tbq : List Char := [bq, bq, bq]

/-- Fenced-block pass (`\x60\x60\x60([\s\S]*?)\x60\x60\x60` global, lazy
body); `ids` supplies the generated block identifiers in order. -/
def fenceScanGo (ids : Nat → List Char) : Nat → Nat → List Char → List Char
  | _, _, [] => []
  | 0, _, l => l
  | fuel + 1, n, c :: rest =>
    if begMatch tbq (c :: rest) then
      match splitFirst tbq (rest.drop 2) with
      | some (code, after) =>
        buildCodeBlock (ids n) code ++ fenceScanGo ids fuel (n + 1) after
      | none => c :: fenceScanGo ids fuel n rest
    else c :: fenceScanGo ids fuel n rest

def fenceScan (ids : Nat → List Char) (l : List Char) : List Char :=
  fenceScanGo ids l.length 0 l

/-- Inline-code pass (`\x60([^\x60]+)\x60` with the group inserted
verbatim, line 117). -/
def inlineCodeGo : Nat → List Char → List Char
  | _, [] => []
  | 0, l => l
  | fuel + 1, c :: rest =>
    if c = bq then
      let content := rest.takeWhile (fun x => !(x == bq))
      if content.isEmpty then c :: inlineCodeGo fuel rest
      else if (rest.drop content.length).head? = some bq then
        str "<code class=\"inline-code\">" ++ content ++ str "</code>" ++
          inlineCodeGo fuel ((rest.drop content.length).drop 1)
      else c :: inlineCodeGo fuel rest
    else c :: inlineCodeGo fuel rest

def inlineCode (l : List Char) : List Char := inlineCodeGo l.length l

/-- Header pass (`^marker(.*$)` with the m flag): the scanner carries
whether the position is at a line start; the markers used all begin with
a non-newline character, so the content after the marker is read from
`rest` shifted by the marker length. -/
def hdrScanGo (marker opening closing : List Char) :
    Nat → Bool → List Char → List Char
  | _, _, [] => []
  | 0, _, l => l
  | fuel + 1, atStart, c :: rest =>
    if atStart && begMatch marker (c :: rest) then
      let content :=
        (rest.drop (marker.length - 1)).takeWhile (fun x => !(x == '\n'))
      opening ++ content ++ closing ++
        hdrScanGo marker opening closing fuel false
          ((rest.drop (marker.length - 1)).drop content.length)
    else c :: hdrScanGo marker opening closing fuel (c == '\n') rest

def hdrScan (marker opening closing l : List Char) : List Char :=
  hdrScanGo marker opening closing l.length true l

/-- Bold pass (`\*\*(.*?)\*\*`): the lazy dot cannot cross a newline, so
a candidate whose body would contain one fails at this start. -/
def boldScanGo : Nat → List Char → List Char
  | _, [] => []
  | 0, l => l
  | fuel + 1, c :: rest =>
    if begMatch (str "**") (c :: rest) then
      match splitFirst (str "**") (rest.drop 1) with
      | some (mid, after) =>
        if '\n' ∈ mid then c :: boldScanGo fuel rest
        else str "<strong>" ++ mid ++ str "</strong>" ++ boldScanGo fuel after
      | none => c :: boldScanGo fuel rest
    else c :: boldScanGo fuel rest

def boldScan (l : List Char) : List Char := boldScanGo l.length l

/-- Italic pass (`\*(.*?)\*`). -/
def italScanGo : Nat → List Char → List Char
  | _, [] => []
  | 0, l => l
  | fuel + 1, c :: rest =>
    if c = '*' then
      match splitFirst ['*'] rest with
      | some (mid, after) =>
        if '\n' ∈ mid then c :: italScanGo fuel rest
        else str "<em>" ++ mid ++ str "</em>" ++ italScanGo fuel after
      | none => c :: italScanGo fuel rest
    else c :: italScanGo fuel rest

def italScan (l : List Char) : List Char := italScanGo l.length l

/-- Link pass (`\[([^\]]+)\]\(([^)]+)\)`, line 126): greedy character
classes leave no backtracking choice, so the runs are the maximal ones. -/
def linkScanGo : Nat → List Char → List Char
  | _, [] => []
  | 0, l => l
  | fuel + 1, c :: rest =>
    if c = '[' then
      let txt := rest.takeWhile (fun x => !(x == ']'))
      let r1 := rest.drop txt.length
      if !txt.isEmpty && r1.head? == some ']' && (r1.drop 1).head? == some '(' then
        let url := (r1.drop 2).takeWhile (fun x => !(x == ')'))
        let r2 := (r1.drop 2).drop url.length
        if !url.isEmpty && r2.head? == some ')' then
          str "<a href=\"" ++ url ++
            str "\" target=\"_blank\" rel=\"noopener noreferrer\">" ++ txt ++
            str "</a>" ++ linkScanGo fuel (r2.drop 1)
        else c :: linkScanGo fuel rest
      else c :: linkScanGo fuel rest
    else c :: linkScanGo fuel rest

def linkScan (l : List Char) : List Char := linkScanGo l.length l

/-- Paragraph-break pass (`\n\n+` to `</p><p>`). -/
def parScanGo : Nat → List Char → List Char
  | _, [] => []
  | 0, l => l
  | fuel + 1, c :: rest =>
    if c = '\n' ∧ rest.head? = some '\n' then
      str "</p><p>" ++ parScanGo fuel
        (rest.drop (rest.takeWhile (fun x => x == '\n')).length)
    else c :: parScanGo fuel rest

def parScan (l : List Char) : List Char := parScanGo l.length l

/-- Whole-string paragraph wrap (`^(.*)$` without the m flag, applied
once): the dot cannot cross a newline and the anchors bind to the string
ends, so the replace fires exactly when the string has no newline. -/
def wrapP (s : List Char) : List Char :=
  if '\n' ∈ s then s else str "<p>" ++ s ++ str "</p>"

def isH16 (c : Char) : Bool := 49 ≤ c.toNat && c.toNat ≤ 54

/-- Head test for `</h[1-6]></p>`. -/
def hEnd : List Char → Option (Char × List Char)
  | '<' :: '/' :: 'h' :: e :: '>' :: '<' :: '/' :: 'p' :: '>' :: rest =>
    if isH16 e then some (e, rest) else none
  | _ => none

/-- Lazy search for the closing of `<p>(<h[1-6]>.*?</h[1-6]>)</p>`: the
shortest newline-free body whose end matches `hEnd`. -/
def findHEnd : List Char → Option (List Char × Char × List Char)
  | [] => none
  | c :: rest =>
    match hEnd (c :: rest) with
    | some (e, after) => some ([], e, after)
    | none =>
      if c = '\n' then none
      else (findHEnd rest).map (fun t => (c :: t.1, t.2.1, t.2.2))

def hpAttempt : List Char → Option (Char × List Char × Char × List Char)
  | '<' :: 'p' :: '>' :: '<' :: 'h' :: d :: '>' :: rest =>
    if isH16 d then (findHEnd rest).map (fun t => (d, t.1, t.2.1, t.2.2))
    else none
  | _ => none

/-- Unwrap pass `<p>(<h[1-6]>.*?</h[1-6]>)</p>` to `$1` (line 131). -/
def unwrapHPGo : Nat → List Char → List Char
  | _, [] => []
  | 0, l => l
  | fuel + 1, c :: rest =>
    match hpAttempt (c :: rest) with
    | some (d, body, e, after) =>
      str "<h" ++ d :: str ">" ++ body ++ str "</h" ++ e :: str ">" ++
        unwrapHPGo fuel after
    | none => c :: unwrapHPGo fuel rest

def unwrapHP (l : List Char) : List Char := unwrapHPGo l.length l

def findDivEnd : List Char → Option (List Char × List Char)
  | [] => none
  | c :: rest =>
    if begMatch (str "</div></p>") (c :: rest) then
      some ([], (c :: rest).drop 10)
    else if c = '\n' then none
    else (findDivEnd rest).map (fun p => (c :: p.1, p.2))

def dpAttempt : List Char → Option (List Char × List Char)
  | '<' :: 'p' :: '>' :: '<' :: 'd' :: 'i' :: 'v' :: rest => findDivEnd rest
  | _ => none

/-- Unwrap pass `<p>(<div.*?</div>)</p>` to `$1` (line 132). -/
def unwrapDPGo : Nat → List Char → List Char
  | _, [] => []
  | 0, l => l
  | fuel + 1, c :: rest =>
    match dpAttempt (c :: rest) with
    | some (body, after) =>
      str "<div" ++ body ++ str "</div>" ++ unwrapDPGo fuel after
    | none => c :: unwrapDPGo fuel rest

def unwrapDP (l : List Char) : List Char := unwrapDPGo l.length l

/-- `convertMarkdownToHTML` (lines 23–136): the full hand-rolled
pipeline.  `ids` supplies the randomly generated code-block ids. -/
def convertMarkdownToHTML (ids : Nat → List Char) (markdown : List Char) :
    List Char :=
  let s1 := normalizeWhitespace markdown
  let s2 := fenceScan ids s1
  let s3 := inlineCode s2
  let s4 := hdrScan (str "# ") (str "<h1>") (str "</h1>") s3
  let s5 := hdrScan (str "## ") (str "<h2>") (str "</h2>") s4
  let s6 := hdrScan (str "### ") (str "<h3>") (str "</h3>") s5
  let s7 := boldScan s6
  let s8 := italScan s7
  let s9 := linkScan s8
  let s10 := parScan s9
  let s11 := chReplace '\n' (str "<br>") s10
  let s12 := wrapP s11
  let s13 := replaceAllLit (str "<p></p>") [] s12
  let s14 := unwrapHP s13
  let s15 := unwrapDP s14
  jsTrim s15

def findCiteEnd : List Char → Option (List Char × List Char)
  | [] => none
  | c :: rest =>
    if begMatch (str ")]") (c :: rest) then some ([], (c :: rest).drop 2)
    else if c = '\n' then none
    else (findCiteEnd rest).map (fun p => (c :: p.1, p.2))

/-- Citation pass of the markdown-it formatter
(response-formatter.js lines 146–149:
`\[\[(\d+)\]\((.*?)\)\]` to the inline-citation anchor). -/
def citationReplaceGo : Nat → List Char → List Char
  | _, [] => []
  | 0, l => l
  | fuel + 1, c :: rest =>
    if begMatch (str "[[") (c :: rest) then
      let ds := (rest.drop 1).takeWhile isDigitCh
      let r1 := (rest.drop 1).drop ds.length
      if !ds.isEmpty && begMatch (str "](") r1 then
        match findCiteEnd (r1.drop 2) with
        | some (url, after) =>
          str "<a href=\"" ++ url ++
            str "\" target=\"_blank\" rel=\"noopener noreferrer\" class=\"inline-citation\">[" ++
            ds ++ str "]</a>" ++ citationReplaceGo fuel after
        | none => c :: citationReplaceGo fuel rest
      else c :: citationReplaceGo fuel rest
    else c :: citationReplaceGo fuel rest

def citationReplace (l : List Char) : List Char :=
  citationReplaceGo l.length l

/-- Whitespace-collapse pass of `processResponse` (`\s+` to one space). -/
def wsCollapseGo : Nat → List Char → List Char
  | _, [] => []
  | 0, l => l
  | fuel + 1, c :: rest =>
    if jsWS c then
      ' ' :: wsCollapseGo fuel (rest.drop (rest.takeWhile jsWS).length)
    else c :: wsCollapseGo fuel rest

def wsCollapse (l : List Char) : List Char := wsCollapseGo l.length l

/-- Tag-gap pass of `processResponse` (`>\s+<` to `><`). -/
def tagGapScanGo : Nat → List Char → List Char
  | _, [] => []
  | 0, l => l
  | fuel + 1, c :: rest =>
    if c = '>' ∧ ¬(rest.takeWhile jsWS).isEmpty = true ∧
        (rest.drop (rest.takeWhile jsWS).length).head? = some '<' then
      str "><" ++
        tagGapScanGo fuel ((rest.drop (rest.takeWhile jsWS).length).drop 1)
    else c :: tagGapScanGo fuel rest

def tagGapScan (l : List Char) : List Char := tagGapScanGo l.length l

/-- The final cleanup of `processResponse` (line 148):
`htmlResponse.trim().replace(/\s+/g, ' ').replace(/>\s+</g, '><')`. -/
def processResponseCleanup (s : List Char) : List Char :=
  tagGapScan (wsCollapse (jsTrim s))

/-- `processResponse` (lines 139–149) as a function of the query, the
answer and the generated block ids. -/
def processResponse (ids : Nat → List Char) (q a : List Char) : List Char :=
  processResponseCleanup (convertMarkdownToHTML ids (formatResponse q a))

/-- C1: round-trip of the preserved raw code.  For every code string,
decoding as performed by `copyCodeBlock`
(`decodeURIComponent(escape(atob(...)))`) applied to the encoding written
by `convertMarkdownToHTML` (`btoa(unescape(encodeURIComponent(...)))`)
yields exactly the original text, so the copy action delivers the raw
code text exactly as it appeared in the fence. -/
theorem stored_code_roundtrip (code : List Char) :
    (encodeStored code).bind decodeStored = some code := by
  unfold encodeStored decodeStored
  rw [unescape_encodeURIComponent code,
    btoa_of_bytes _ (utf8Str_lt_256 code)]
  rw [Option.some_bind, atob_b64Encode _ (utf8Str_lt_256 code), Option.some_bind]
  have := decU_escape code [] [] (by simp [decodeURIComponent])
  simpa using this

theorem nlLead_cons_nl (rest : List Char) : nlLead ('\n' :: rest) = nlLead rest + 1 := by
  simp [nlLead]

theorem collapseNl_cons_head (c : Char) (rest : List Char) :
    (collapseNl (c :: rest)).head? = some c := by
  by_cases h : c = '\n' ∧ 3 ≤ nlCount ((c :: rest).takeWhile jsWS)
  · simp only [collapseNl]; rw [dif_pos h, h.1]; rfl
  · simp only [collapseNl]; rw [dif_neg h]; rfl

theorem collapseNl_invariant (l : List Char) :
    noTriple (collapseNl l) = true ∧ nlLead (collapseNl l) ≤ 2 ∧
      nlLead (collapseNl l) ≤ nlCount (l.takeWhile jsWS) := by
  induction l using collapseNl.induct with
  | case1 => simp [collapseNl, noTriple, nlLead]
  | case2 c rest h ih =>
    obtain ⟨hnt, hl2, hlc⟩ := ih
    have hz : nlLead (collapseNl ((c :: rest).drop
        (afterLastNl ((c :: rest).takeWhile jsWS)))) = 0 :=
      nlLead_collapse_zero _ (fun d hd => head_drop_afterLastNl (c :: rest) d hd)
    simp only [collapseNl]
    rw [dif_pos h]
    have h3 := h.2
    refine ⟨?_, ?_, ?_⟩
    · refine noTriple_cons_of _ _ (noTriple_cons_of _ _ hnt (Or.inr (by omega)))
        (Or.inr ?_)
      rw [nlLead_cons_nl]
      omega
    · rw [nlLead_cons_nl, nlLead_cons_nl]
      omega
    · rw [nlLead_cons_nl, nlLead_cons_nl]
      omega
  | case3 c rest h ih =>
    obtain ⟨hnt, hl2, hlc⟩ := ih
    simp only [collapseNl]
    rw [dif_neg h]
    by_cases hc : c = '\n'
    · subst hc
      have hcount : nlCount (('\n' :: rest).takeWhile jsWS) ≤ 2 := by
        by_contra hcc
        push_neg at hcc
        exact h ⟨rfl, by omega⟩
      have hrun : ('\n' :: rest).takeWhile jsWS = '\n' :: rest.takeWhile jsWS :=
        List.takeWhile_cons_of_pos (by decide)
      have hrc : nlCount (('\n' :: rest).takeWhile jsWS)
          = nlCount (rest.takeWhile jsWS) + 1 := by
        rw [hrun]
        simp [nlCount, List.countP_cons]
      refine ⟨noTriple_cons_of _ _ hnt (Or.inr (by omega)), ?_, ?_⟩
      · rw [nlLead_cons_nl]; omega
      · rw [nlLead_cons_nl]; omega
    · refine ⟨noTriple_cons_of _ _ hnt (Or.inl hc), ?_, ?_⟩
      · simp [nlLead, hc]
      · simp [nlLead, hc]

theorem getLast?_drop_of_ne_nil (l : List Char) (n : Nat) (h : l.drop n ≠ []) :
    (l.drop n).getLast? = l.getLast? := by
  conv_rhs => rw [← List.take_append_drop n l]
  rw [List.getLast?_append_of_ne_nil _ h]

theorem run_ne_all (l : List Char) (d : Char) (hws : jsWS d = false)
    (hlast : l.getLast? = some d) :
    l.drop (afterLastNl (l.takeWhile jsWS)) ≠ [] := by
  intro hnil
  rw [List.drop_eq_nil_iff] at hnil
  have h1 : afterLastNl (l.takeWhile jsWS) ≤ (l.takeWhile jsWS).length :=
    afterLastNl_le _
  have h2 : (l.takeWhile jsWS).length ≤ l.length := takeWhile_length_le _ _
  have heq : (l.takeWhile jsWS).length = l.length := by omega
  have hrun : l.takeWhile jsWS = l :=
    ( List.takeWhile_prefix jsWS).sublist.eq_of_length heq
  have hd : d ∈ l := List.mem_of_getLast?_eq_some hlast
  have hd' : d ∈ l.takeWhile jsWS := by rw [hrun]; exact hd
  have := List.mem_takeWhile_imp hd'
  rw [this] at hws
  exact Bool.true_eq_false.mp hws

theorem collapseNl_getLast (l : List Char) :
    ∀ d, jsWS d = false → l.getLast? = some d →
      (collapseNl l).getLast? = some d := by
  induction l using collapseNl.induct with
  | case1 => intro d _ h; simp at h
  | case2 c rest h ih =>
    intro d hws hl
    simp only [collapseNl]
    rw [dif_pos h]
    have hne := run_ne_all (c :: rest) d hws hl
    have hlast' : ((c :: rest).drop
        (afterLastNl ((c :: rest).takeWhile jsWS))).getLast? = some d := by
      rw [getLast?_drop_of_ne_nil _ _ hne]; exact hl
    have hout := ih d hws hlast'
    cases hco : collapseNl ((c :: rest).drop
        (afterLastNl ((c :: rest).takeWhile jsWS))) with
    | nil => rw [hco] at hout; simp at hout
    | cons x xs =>
      rw [hco] at hout
      rw [List.getLast?_cons_cons, List.getLast?_cons_cons]
      exact hout
  | case3 c rest h ih =>
    intro d hws hl
    simp only [collapseNl]
    rw [dif_neg h]
    cases rest with
    | nil => simpa [collapseNl] using hl
    | cons r rs =>
      rw [List.getLast?_cons_cons] at hl
      have hout := ih d hws hl
      cases hco : collapseNl (r :: rs) with
      | nil => rw [hco] at hout; simp at hout
      | cons x xs =>
        rw [hco] at hout
        rw [List.getLast?_cons_cons]
        exact hout

theorem dropWhile_getLast? (p : Char → Bool) :
    ∀ l : List Char, l.dropWhile p ≠ [] → (l.dropWhile p).getLast? = l.getLast?
  | [], h => by simp [List.dropWhile] at h
  | x :: xs, h => by
    by_cases hx : p x
    · rw [List.dropWhile_cons_of_pos hx] at h ⊢
      have hxs : xs ≠ [] := by
        intro he; rw [he] at h; simp [List.dropWhile] at h
      rw [dropWhile_getLast? p xs h]
      cases xs with
      | nil => exact absurd rfl hxs
      | cons a as => rw [List.getLast?_cons_cons]
    · rw [List.dropWhile_cons_of_neg hx]

theorem jsTrim_head (s : List Char) (c : Char) (h : (jsTrim s).head? = some c) :
    jsWS c = false := by
  unfold jsTrim at h
  rw [List.head?_reverse] at h
  have hy : (s.dropWhile jsWS).reverse.dropWhile jsWS ≠ [] := by
    intro he; rw [he] at h; simp at h
  rw [dropWhile_getLast? _ _ hy, List.getLast?_reverse] at h
  exact head_dropWhile_false _ _ _ h

theorem jsTrim_last (s : List Char) (c : Char) (h : (jsTrim s).getLast? = some c) :
    jsWS c = false := by
  unfold jsTrim at h
  rw [List.getLast?_reverse] at h
  exact head_dropWhile_false _ _ _ h

theorem takeWhile_append_stop (p : Char → Bool) :
    ∀ (l x : List Char), (∃ y ∈ l, p y = false) →
      (l ++ x).takeWhile p = l.takeWhile p
  | [], _, h => by simp at h
  | c :: cs, x, h => by
    by_cases hc : p c
    · rw [List.cons_append, List.takeWhile_cons_of_pos hc,
        List.takeWhile_cons_of_pos hc]
      obtain ⟨y, hy, hpy⟩ := h
      rcases List.mem_cons.mp hy with rfl | hy'
      · rw [hc] at hpy; simp at hpy
      · rw [takeWhile_append_stop p cs x ⟨y, hy', hpy⟩]
    · rw [List.cons_append, List.takeWhile_cons_of_neg hc,
        List.takeWhile_cons_of_neg hc]

theorem last_mem_false (u : List Char)
    (hu : ∀ c, u.getLast? = some c → jsWS c = false) (hne : u ≠ []) :
    ∃ y ∈ u, jsWS y = false := by
  cases hgl : u.getLast? with
  | none => rw [List.getLast?_eq_none_iff] at hgl; exact absurd hgl hne
  | some g => exact ⟨g, List.mem_of_getLast?_eq_some hgl, hu g hgl⟩

theorem collapseNl_append : ∀ (u x : List Char),
    (∀ c, u.getLast? = some c → jsWS c = false) →
    collapseNl (u ++ x) = collapseNl u ++ collapseNl x
  | [], x, _ => by simp [collapseNl]
  | c :: u', x, hu => by
    have hex : ∃ y ∈ (c :: u'), jsWS y = false :=
      last_mem_false _ hu (by simp)
    have hrun : ((c :: u') ++ x).takeWhile jsWS = (c :: u').takeWhile jsWS :=
      takeWhile_append_stop jsWS (c :: u') x hex
    have hcons : (c :: u') ++ x = c :: (u' ++ x) := rfl
    by_cases htr : c = '\n' ∧ 3 ≤ nlCount ((c :: u').takeWhile jsWS)
    · have hkle : afterLastNl ((c :: u').takeWhile jsWS) ≤ (c :: u').length :=
        le_trans (afterLastNl_le _) (takeWhile_length_le _ _)
      have hruneq : (c :: (u' ++ x)).takeWhile jsWS = (c :: u').takeWhile jsWS := by
        rw [← hcons]; exact hrun
      have hdropeq : (c :: (u' ++ x)).drop
            (afterLastNl ((c :: (u' ++ x)).takeWhile jsWS))
          = (c :: u').drop (afterLastNl ((c :: u').takeWhile jsWS)) ++ x := by
        rw [hruneq, ← hcons, List.drop_append_eq_append_drop,
          Nat.sub_eq_zero_of_le hkle, List.drop_zero]
      obtain ⟨g, hg⟩ : ∃ g, (c :: u').getLast? = some g := by
        cases hgl : (c :: u').getLast? with
        | none => rw [List.getLast?_eq_none_iff] at hgl; simp at hgl
        | some g => exact ⟨g, rfl⟩
      have hgws := hu g hg
      have hne2 : (c :: u').drop (afterLastNl ((c :: u').takeWhile jsWS)) ≠ [] :=
        run_ne_all (c :: u') g hgws hg
      have hu2 : ∀ d, ((c :: u').drop
            (afterLastNl ((c :: u').takeWhile jsWS))).getLast? = some d →
          jsWS d = false := by
        intro d hd
        rw [getLast?_drop_of_ne_nil _ _ hne2] at hd
        exact hu d hd
      rw [hcons]
      simp only [collapseNl]
      rw [dif_pos (⟨htr.1, by rw [hruneq]; exact htr.2⟩ :
            c = '\n' ∧ 3 ≤ nlCount ((c :: (u' ++ x)).takeWhile jsWS)),
        dif_pos htr, hdropeq,
        collapseNl_append ((c :: u').drop (afterLastNl ((c :: u').takeWhile jsWS))) x hu2]
      simp
    · have hu' : ∀ d, u'.getLast? = some d → jsWS d = false := by
        intro d hd
        apply hu
        cases u' with
        | nil => simp at hd
        | cons a as => rw [List.getLast?_cons_cons]; exact hd
      rw [hcons]
      simp only [collapseNl]
      rw [dif_neg (fun hcond => htr ⟨hcond.1, by
            rw [← hcons, hrun] at hcond; exact hcond.2⟩),
        dif_neg htr, collapseNl_append u' x hu']
      simp
termination_by u x hu => u.length
decreasing_by
  · exact collapseNl_dec _ _ (by assumption)
  · simp [List.length_cons]

theorem afterLastNl_replicate (k : Nat) (hk : 1 ≤ k) :
    afterLastNl (List.replicate k '\n') = k := by
  unfold afterLastNl
  rw [List.reverse_replicate]
  cases k with
  | zero => omega
  | succ n =>
    rw [List.replicate_succ, List.takeWhile_cons_of_neg (by simp)]
    simp

theorem nlCount_replicate : ∀ k : Nat, nlCount (List.replicate k '\n') = k
  | 0 => rfl
  | k + 1 => by
    have ih := nlCount_replicate k
    unfold nlCount at ih ⊢
    rw [List.replicate_succ, List.countP_cons]
    simp [ih]

theorem collapseNl_nlrun (k : Nat) (hk : 3 ≤ k) (v : List Char)
    (hv : ∀ c, v.head? = some c → jsWS c = false) :
    collapseNl (List.replicate k '\n' ++ v) = '\n' :: '\n' :: collapseNl v := by
  have hrun : (List.replicate k '\n' ++ v).takeWhile jsWS
      = List.replicate k '\n' := by
    rw [List.takeWhile_append_of_pos
      (by intro a ha; rw [List.eq_of_mem_replicate ha]; decide)]
    cases v with
    | nil => simp
    | cons c cs =>
      rw [List.takeWhile_cons_of_neg (by have := hv c rfl; simp [this])]
      simp
  obtain ⟨m, rfl⟩ : ∃ m, k = m + 1 := ⟨k - 1, by omega⟩
  have hshape : List.replicate (m + 1) '\n' ++ v
      = '\n' :: (List.replicate m '\n' ++ v) := by
    rw [List.replicate_succ, List.cons_append]
  rw [hshape]
  rw [hshape] at hrun
  simp only [collapseNl]
  rw [dif_pos (show True ∧
        3 ≤ nlCount (('\n' :: (List.replicate m '\n' ++ v)).takeWhile jsWS) from
      ⟨trivial, by rw [hrun, nlCount_replicate]; omega⟩)]
  have hdrop : ('\n' :: (List.replicate m '\n' ++ v)).drop
      (afterLastNl (('\n' :: (List.replicate m '\n' ++ v)).takeWhile jsWS)) = v := by
    rw [hrun, afterLastNl_replicate (m + 1) (by omega), ← hshape,
      List.drop_left' (by simp)]
  rw [hdrop]

theorem collapseNl_run (u v : List Char) (k : Nat) (hk : 3 ≤ k)
    (hu : ∀ c, u.getLast? = some c → jsWS c = false)
    (hv : ∀ c, v.head? = some c → jsWS c = false) :
    collapseNl (u ++ (List.replicate k '\n' ++ v))
      = collapseNl u ++ '\n' :: '\n' :: collapseNl v := by
  rw [collapseNl_append u _ hu, collapseNl_nlrun k hk v hv]

/-- C5: after the first stage of `convertMarkdownToHTML` (trim plus
newline collapsing), the result carries no leading or trailing JavaScript
whitespace, contains no run of three or more consecutive newlines, and
every maximal run of three or more newlines of the (trimmed) input —
bordered by non-whitespace on both sides — is rendered as exactly two
newlines. -/
theorem normalizeWhitespace_spec (s : List Char) :
    (∀ c, (normalizeWhitespace s).head? = some c → jsWS c = false) ∧
    (∀ c, (normalizeWhitespace s).getLast? = some c → jsWS c = false) ∧
    noTriple (normalizeWhitespace s) = true ∧
    (∀ u v k, 3 ≤ k →
      (∀ c, u.getLast? = some c → jsWS c = false) →
      (∀ c, v.head? = some c → jsWS c = false) →
      jsTrim s = u ++ (List.replicate k '\n' ++ v) →
      normalizeWhitespace s = collapseNl u ++ '\n' :: '\n' :: collapseNl v) := by
  refine ⟨?_, ?_, ?_, ?_⟩
  · intro c hc
    rw [normalizeWhitespace_eq_collapseNl] at hc
    cases hl : jsTrim s with
    | nil => rw [hl] at hc; simp [collapseNl] at hc
    | cons a as =>
      rw [hl, collapseNl_cons_head] at hc
      injection hc with hac
      apply jsTrim_head s
      rw [hl, ← hac]
      rfl
  · intro c hc
    rw [normalizeWhitespace_eq_collapseNl] at hc
    cases hl : (jsTrim s).getLast? with
    | none =>
      rw [List.getLast?_eq_none_iff] at hl
      rw [hl] at hc
      simp [collapseNl] at hc
    | some d =>
      have hws := jsTrim_last s d hl
      have := collapseNl_getLast (jsTrim s) d hws hl
      rw [this] at hc
      injection hc with hdc
      rw [← hdc]
      exact hws
  · rw [normalizeWhitespace_eq_collapseNl]
    exact (collapseNl_invariant (jsTrim s)).1
  · intro u v k hk hu hv heq
    rw [normalizeWhitespace_eq_collapseNl, heq]
    exact collapseNl_run u v k hk hu hv

/-- Witness for C5 at the concrete input `a(4 newlines)b`. -/
theorem normalizeWhitespace_spec_witness :
    normalizeWhitespace (str "a\n\n\n\nb")
      = collapseNl (str "a") ++ '\n' :: '\n' :: collapseNl (str "b") :=
  (normalizeWhitespace_spec (str "a\n\n\n\nb")).2.2.2 (str "a") (str "b") 4
    (by omega)
    (by intro c hc
        rw [show (str "a").getLast? = some 'a' from by decide] at hc
        injection hc with h
        rw [← h]
        decide)
    (by intro c hc
        rw [show (str "b").head? = some 'b' from by decide] at hc
        injection hc with h
        rw [← h]
        decide)
    (by decide)

/-- C4 (amended): `formatResponse(q, a)` equals the concatenation
`"# " ++ t ++ "\n\n" ++ a` (with `t` the question, `?`-terminated),
provided the title contains no `{answer}` substring and neither the title
nor the answer contains a dollar pattern that JavaScript string
replacement expands (`$$`, `$&`, dollar-backquote, dollar-quote).
Without these provisos the claim is false (see the counterexample). -/
theorem jsReplaceFirst_eq (s pat rep b a : List Char)
    (h : splitFirst pat s = some (b, a)) :
    jsReplaceFirst s pat rep = b ++ dollarExpand pat b a rep ++ a := by
  unfold jsReplaceFirst; rw [h]

theorem formatResponse_title_answer_contract (q a : List Char)
    (h1 : noDollarSpecial (mkTitle q) = true)
    (h2 : noDollarSpecial a = true)
    (h3 : hasSub (str "\x7banswer\x7d") (mkTitle q) = false) :
    formatResponse q a = str "# " ++ mkTitle q ++ str "\n\n" ++ a := by
  have hu : hasSub (str "\x7banswer\x7d") (str "# " ++ mkTitle q) = false := by
    rw [show str "# " ++ mkTitle q = '#' :: ' ' :: mkTitle q from rfl]
    exact hasSub_hash_space _ _ (by decide) (by decide) h3
  have key1 : jsReplaceFirst formatterTemplateFormat (str "\x7btitle\x7d") (mkTitle q)
      = str "# " ++ mkTitle q ++ str "\n\n\x7banswer\x7d" := by
    rw [jsReplaceFirst_eq _ _ _ (str "# ") (str "\n\n\x7banswer\x7d") (by decide)]
    rw [dollarExpand_of_noSpecial _ _ _ _ h1]
  have key2 : splitFirst (str "\x7banswer\x7d")
        (str "# " ++ mkTitle q ++ str "\n\n\x7banswer\x7d")
      = some (str "# " ++ mkTitle q ++ str "\n\n", []) := by
    have h := splitFirst_mid (str "\x7banswer\x7d") [] (by decide) (by decide)
      (str "# " ++ mkTitle q) hu
    rw [show '\n' :: '\n' :: (str "\x7banswer\x7d" ++ []) = str "\n\n\x7banswer\x7d" from
      by decide] at h
    rw [show (['\n', '\n'] : List Char) = str "\n\n" from by decide] at h
    rw [List.append_assoc, List.append_assoc] at h
    exact h
  rw [show formatResponse q a
      = jsReplaceFirst (jsReplaceFirst formatterTemplateFormat (str "\x7btitle\x7d")
          (mkTitle q)) (str "\x7banswer\x7d") a from rfl,
    key1, jsReplaceFirst_eq _ _ _ _ _ key2, dollarExpand_of_noSpecial _ _ _ _ h2]
  simp [List.append_assoc]

/-- C4 counterexample: for question `{answer}` and answer `A`, the code
substitutes the answer into the first `{answer}` occurrence, which is
inside the title, leaving the template's own `{answer}` literal in the
output; the claimed concatenation form does not hold. -/
theorem formatResponse_claim_false :
    formatResponse (str "\x7banswer\x7d") (str "A") = str "# A?\n\n\x7banswer\x7d" ∧
    formatResponse (str "\x7banswer\x7d") (str "A") ≠ str "# \x7banswer\x7d?\n\nA" := by
  decide

/-- Witness for C4's amended theorem at a concrete input. -/
theorem formatResponse_title_answer_contract_witness :
    formatResponse (str "hi") (str "there")
      = str "# " ++ mkTitle (str "hi") ++ str "\n\n" ++ str "there" :=
  formatResponse_title_answer_contract (str "hi") (str "there")
    (by decide) (by decide) (by decide)

/-! ### DOM model of the copy-button attachment (src/unnamed/part_000)

`addCopyButtons` (lines 53–71) walks every `pre code` element of the
document; if the element has no `.code-block-container` ancestor-or-self
it is moved into a fresh container div placed where it stood, preceded
by a copy button.  The DOM is modelled as a mutual tree of elements
(tag, class list, children) and text; the tree transformation carries
two ancestor flags: whether a `pre` ancestor exists (the descendant
combinator of the selector) and whether a container ancestor-or-self was
seen (the `closest` test; the self part is checked at the node).
`querySelectorAll` is a static snapshot, but a skipped or wrapped node
is decided by its ancestors only and wrapping inserts a container above
the moved node, so the in-order local rewriting below yields the same
document. -/

mutual
inductive DomNode where
  | elem (tag : List Char) (classes : List (List Char)) (children : DomForest) : DomNode
  | text (s : List Char) : DomNode
inductive DomForest where
  | nil : DomForest
  | cons (n : DomNode) (rest : DomForest) : DomForest
end

/-- The control inserted by `addCopyButtons` (lines 61–64). -/
def copyButton : DomNode :=
  .elem (str "button") [str "copy-code-button"]
    (.cons (.elem (str "img") [str "copy-icon"] .nil) .nil)

/-- The wrap condition of lines 54–55: a `code` element with a `pre`
ancestor and no `.code-block-container` ancestor-or-self. -/
def qualifies (inPre inCont : Bool) (tag : List Char)
    (classes : List (List Char)) : Prop :=
  tag = str "code" ∧ inPre = true ∧ inCont = false ∧
    classes.contains (str "code-block-container") = false

instance (inPre inCont : Bool) (tag : List Char) (classes : List (List Char)) :
    Decidable (qualifies inPre inCont tag classes) := by
  unfold qualifies; infer_instance

mutual
def wrapNode (inPre inCont : Bool) : DomNode → DomNode
  | .text s => .text s
  | .elem tag classes children =>
    .elem tag classes
      (wrapForest (inPre || tag == str "pre")
        (inCont || classes.contains (str "code-block-container")) children)
def wrapForest (inPre inCont : Bool) : DomForest → DomForest
  | .nil => .nil
  | .cons n rest =>
    match n with
    | .elem tag classes children =>
      if qualifies inPre inCont tag classes then
        .cons (.elem (str "div") [str "code-block-container"]
          (.cons copyButton (.cons (.elem tag classes
            (wrapForest (inPre || tag == str "pre") true children)) .nil)))
          (wrapForest inPre inCont rest)
      else .cons (wrapNode inPre inCont (.elem tag classes children))
        (wrapForest inPre inCont rest)
    | .text s => .cons (.text s) (wrapForest inPre inCont rest)
end

/-- `addCopyButtons` on a whole document (no `pre` or container above
the root). -/
def addCopyButtons (doc : DomForest) : DomForest := wrapForest false false doc

mutual
def btnCountN : DomNode → Nat
  | .text _ => 0
  | .elem _ classes children =>
    (if classes.contains (str "copy-code-button") then 1 else 0) +
      btnCountF children
def btnCountF : DomForest → Nat
  | .nil => 0
  | .cons n rest => btnCountN n + btnCountF rest
end

mutual
def qualCountN (inPre inCont : Bool) : DomNode → Nat
  | .text _ => 0
  | .elem tag classes children =>
    qualCountF (inPre || tag == str "pre")
      (inCont || classes.contains (str "code-block-container")) children
def qualCountF (inPre inCont : Bool) : DomForest → Nat
  | .nil => 0
  | .cons n rest =>
    (match n with
     | .elem tag classes children =>
       if qualifies inPre inCont tag classes then 1
       else qualCountN inPre inCont (.elem tag classes children)
     | .text _ => 0) + qualCountF inPre inCont rest
end

mutual
theorem wrapNode_cont : ∀ (inPre : Bool) (n : DomNode), wrapNode inPre true n = n
  | _, .text s => rfl
  | inPre, .elem tag classes children => by
    simp only [wrapNode, Bool.true_or]
    rw [wrapForest_cont _ children]
theorem wrapForest_cont :
    ∀ (inPre : Bool) (l : DomForest), wrapForest inPre true l = l
  | _, .nil => rfl
  | inPre, .cons n rest => by
    cases n with
    | text s =>
      simp only [wrapForest]
      rw [wrapForest_cont _ rest]
    | elem tag classes children =>
      simp only [wrapForest]
      rw [if_neg (by simp [qualifies])]
      rw [wrapNode_cont, wrapForest_cont]
end

mutual
theorem wrapNode_idem :
    ∀ (inPre inCont : Bool) (n : DomNode),
      wrapNode inPre inCont (wrapNode inPre inCont n) = wrapNode inPre inCont n
  | _, _, .text s => rfl
  | inPre, inCont, .elem tag classes children => by
    simp only [wrapNode]
    rw [wrapForest_idem]
theorem wrapForest_idem :
    ∀ (inPre inCont : Bool) (l : DomForest),
      wrapForest inPre inCont (wrapForest inPre inCont l) = wrapForest inPre inCont l
  | _, _, .nil => rfl
  | inPre, inCont, .cons n rest => by
    cases n with
    | text s =>
      simp only [wrapForest]
      rw [wrapForest_idem]
    | elem tag classes children =>
      by_cases hq : qualifies inPre inCont tag classes
      · rw [show wrapForest inPre inCont (.cons (.elem tag classes children) rest)
            = .cons (.elem (str "div") [str "code-block-container"]
                (.cons copyButton (.cons (.elem tag classes
                  (wrapForest (inPre || tag == str "pre") true children)) .nil)))
              (wrapForest inPre inCont rest) from by
          simp only [wrapForest]; rw [if_pos hq]]
        simp only [wrapForest]
        rw [if_neg (by simp [qualifies])]
        simp only [wrapNode]
        rw [show (inCont || ([str "code-block-container"] :
              List (List Char)).contains (str "code-block-container")) = true from by
            simp]
        rw [wrapForest_cont, wrapForest_idem]
      · rw [show wrapForest inPre inCont (.cons (.elem tag classes children) rest)
            = .cons (wrapNode inPre inCont (.elem tag classes children))
              (wrapForest inPre inCont rest) from by
          simp only [wrapForest]; rw [if_neg hq]]
        simp only [wrapNode]
        simp only [wrapForest]
        rw [if_neg hq]
        simp only [wrapNode]
        rw [wrapForest_idem, wrapForest_idem]
end

mutual
theorem btnCount_wrapN :
    ∀ (inPre inCont : Bool) (n : DomNode),
      btnCountN (wrapNode inPre inCont n) = btnCountN n + qualCountN inPre inCont n
  | _, _, .text s => rfl
  | inPre, inCont, .elem tag classes children => by
    simp only [wrapNode, btnCountN, qualCountN]
    rw [btnCount_wrapF]
    omega
theorem btnCount_wrapF :
    ∀ (inPre inCont : Bool) (l : DomForest),
      btnCountF (wrapForest inPre inCont l) = btnCountF l + qualCountF inPre inCont l
  | _, _, .nil => rfl
  | inPre, inCont, .cons n rest => by
    cases n with
    | text s =>
      simp only [wrapForest, btnCountF, btnCountN, qualCountF]
      rw [btnCount_wrapF]
      omega
    | elem tag classes children =>
      by_cases hq : qualifies inPre inCont tag classes
      · rw [show wrapForest inPre inCont (.cons (.elem tag classes children) rest)
            = .cons (.elem (str "div") [str "code-block-container"]
                (.cons copyButton (.cons (.elem tag classes
                  (wrapForest (inPre || tag == str "pre") true children)) .nil)))
              (wrapForest inPre inCont rest) from by
          simp only [wrapForest]; rw [if_pos hq]]
        rw [wrapForest_cont]
        rw [show qualCountF inPre inCont (.cons (.elem tag classes children) rest)
            = 1 + qualCountF inPre inCont rest from by
          simp only [qualCountF]; rw [if_pos hq]]
        simp only [btnCountF, btnCountN, copyButton]
        rw [btnCount_wrapF]
        have hdiv : ([str "code-block-container"] :
            List (List Char)).contains (str "copy-code-button") = false := by decide
        have hbtn : ([str "copy-code-button"] :
            List (List Char)).contains (str "copy-code-button") = true := by decide
        have hicon : ([str "copy-icon"] :
            List (List Char)).contains (str "copy-code-button") = false := by decide
        rw [hdiv, hbtn, hicon]
        simp only [Bool.false_eq_true, if_false, if_true]
        omega
      · rw [show wrapForest inPre inCont (.cons (.elem tag classes children) rest)
            = .cons (wrapNode inPre inCont (.elem tag classes children))
              (wrapForest inPre inCont rest) from by
          simp only [wrapForest]; rw [if_neg hq]]
        rw [show qualCountF inPre inCont (.cons (.elem tag classes children) rest)
            = qualCountN inPre inCont (.elem tag classes children) +
              qualCountF inPre inCont rest from by
          simp only [qualCountF]; rw [if_neg hq]]
        simp only [btnCountF]
        rw [btnCount_wrapN, btnCount_wrapF]
        omega
end

/-- C8: the attachment routine is idempotent and attaches exactly one
control per qualifying block.  For every document, re-invoking
`addCopyButtons` on the already-equipped result changes nothing (every
wrapped block now sits inside a `.code-block-container`, which `closest`
detects), and one invocation adds exactly one copy button per `pre code`
element not already inside a container. -/
theorem addCopyButtons_idempotent_one_control :
    ∀ doc : DomForest,
      addCopyButtons (addCopyButtons doc) = addCopyButtons doc ∧
      btnCountF (addCopyButtons doc)
        = btnCountF doc + qualCountF false false doc :=
  fun doc => ⟨wrapForest_idem false false doc, btnCount_wrapF false false doc⟩

/-! ### The copy-feedback control state (src/unnamed/part_000 lines 24–32)

`showCopySuccess` captures the button's current innerHTML, overwrites it
with the acknowledgment, and schedules a timeout that restores the
captured string 1200 ms later.  The state records the content, the
`copied` class, and the queue of scheduled timeouts (absolute fire time
with the content each will restore); timeouts fire in schedule order,
which here is fire-time order. -/

structure BtnState where
  content : List Char
  copiedCl : Bool
  pending : List (Nat × List Char)
deriving DecidableEq

/-- The idle control as built by `addCopyButtons` (line 64). -/
def idleBtn : BtnState :=
  ⟨str "<img src=\"/assets/copy.svg\" alt=\"Copy\" class=\"copy-icon\">", false, []⟩

/-- `showCopySuccess` activated at absolute time `now` (lines 24–32):
capture, overwrite, add the class, schedule the restore. -/
def showCopySuccess (now : Nat) (s : BtnState) : BtnState :=
  { content := str "&#10003; Copied!",
    copiedCl := true,
    pending := s.pending ++ [(now + 1200, s.content)] }

/-- Fire the next scheduled timeout (lines 28–31): restore the captured
content and drop the class. -/
def fireNext : BtnState → BtnState
  | ⟨c, cp, []⟩ => ⟨c, cp, []⟩
  | ⟨_, _, (_, restore) :: rest⟩ => ⟨restore, false, rest⟩

/-- C9: a second activation 600 ms after the first does not reset the
timer: both timeouts remain queued (the second captured the
acknowledgment text as its "original"), and after both fire the control
is stuck showing the acknowledgment, not its original idle content. -/
theorem copy_feedback_timer_stacks :
    (showCopySuccess 600 (showCopySuccess 0 idleBtn)).pending
      = [(1200, idleBtn.content), (1800, str "&#10003; Copied!")] ∧
    fireNext (fireNext (showCopySuccess 600 (showCopySuccess 0 idleBtn)))
      = ⟨str "&#10003; Copied!", false, []⟩ ∧
    (fireNext (fireNext (showCopySuccess 600 (showCopySuccess 0 idleBtn)))).content
      ≠ idleBtn.content := by
  refine ⟨by decide, by decide, by decide⟩

/-- C2: rendering the fenced `js` block with body
`if (x < 1) \x7b return "<b>"; \x7d` through `convertMarkdownToHTML`.
The escaping half of the claim holds (no unescaped `<b>` from the code
appears), but the highlighting half fails: the output contains no intact
`<span class="js-keyword">…</span>` around `if` or `return`; instead the
later string rule matched the quoted class attribute `"js-keyword"` of
the spans the keyword rule itself inserted (twice), corrupting them. -/
theorem highlight_markup_self_corruption :
    convertMarkdownToHTML (fun _ => str "X")
        (str "\x60\x60\x60js\nif (x < 1) \x7b return \"<b>\"; \x7d\n\x60\x60\x60")
      = str "<p><br>            <div class=\"code-block-container\"><br>                <div class=\"code-block-header\"><br>                    <span class=\"code-language\">js</span><br>                    <button class=\"copy-code-button\" onclick=\"copyCodeBlock(\x27X\x27)\" data-tooltip=\"Copy code\"><br>                        <svg xmlns=\"http://www.w3.org/2000/svg\" width=\"16\" height=\"16\" viewBox=\"0 0 24 24\" fill=\"none\" stroke=\"currentColor\" stroke-width=\"2\" stroke-linecap=\"round\" stroke-linejoin=\"round\"><br>                            <rect x=\"9\" y=\"9\" width=\"13\" height=\"13\" rx=\"2\" ry=\"2\"></rect><br>                            <path d=\"M5 15H4a2 2 0 0 1-2-2V4a2 2 0 0 1 2-2h9a2 2 0 0 1 2 2v1\"></path><br>                        </svg><br>                        Copy<br>                    </button><br>                </div><br>                <pre><code id=\"X\" class=\"language-js\" data-original-code=\"aWYgKHggPCAxKSB7IHJldHVybiAiPGI+IjsgfQ==\"><span class=<span class=\"js-string\">\"js-keyword\"</span>>if</span> (x &lt; <span class=\"js-number\">1</span>) \x7b <span class=<span class=\"js-string\">\"js-keyword\"</span>>return</span> &quot;&lt;b&gt;&quot;; \x7d</code></pre><br>            </div><br>        </p>" ∧
    hasSub (str "<b>")
      (convertMarkdownToHTML (fun _ => str "X")
        (str "\x60\x60\x60js\nif (x < 1) \x7b return \"<b>\"; \x7d\n\x60\x60\x60")) = false ∧
    subCount (str "<span class=\"js-keyword\">if</span>")
      (convertMarkdownToHTML (fun _ => str "X")
        (str "\x60\x60\x60js\nif (x < 1) \x7b return \"<b>\"; \x7d\n\x60\x60\x60")) = 0 ∧
    subCount (str "<span class=\"js-keyword\">return</span>")
      (convertMarkdownToHTML (fun _ => str "X")
        (str "\x60\x60\x60js\nif (x < 1) \x7b return \"<b>\"; \x7d\n\x60\x60\x60")) = 0 ∧
    subCount (str "<span class=\"js-string\">\"js-keyword\"</span>")
      (convertMarkdownToHTML (fun _ => str "X")
        (str "\x60\x60\x60js\nif (x < 1) \x7b return \"<b>\"; \x7d\n\x60\x60\x60")) = 2 := by
  have he : convertMarkdownToHTML (fun _ => str "X")
      (str "\x60\x60\x60js\nif (x < 1) \x7b return \"<b>\"; \x7d\n\x60\x60\x60")
      = str "<p><br>            <div class=\"code-block-container\"><br>                <div class=\"code-block-header\"><br>                    <span class=\"code-language\">js</span><br>                    <button class=\"copy-code-button\" onclick=\"copyCodeBlock(\x27X\x27)\" data-tooltip=\"Copy code\"><br>                        <svg xmlns=\"http://www.w3.org/2000/svg\" width=\"16\" height=\"16\" viewBox=\"0 0 24 24\" fill=\"none\" stroke=\"currentColor\" stroke-width=\"2\" stroke-linecap=\"round\" stroke-linejoin=\"round\"><br>                            <rect x=\"9\" y=\"9\" width=\"13\" height=\"13\" rx=\"2\" ry=\"2\"></rect><br>                            <path d=\"M5 15H4a2 2 0 0 1-2-2V4a2 2 0 0 1 2-2h9a2 2 0 0 1 2 2v1\"></path><br>                        </svg><br>                        Copy<br>                    </button><br>                </div><br>                <pre><code id=\"X\" class=\"language-js\" data-original-code=\"aWYgKHggPCAxKSB7IHJldHVybiAiPGI+IjsgfQ==\"><span class=<span class=\"js-string\">\"js-keyword\"</span>>if</span> (x &lt; <span class=\"js-number\">1</span>) \x7b <span class=<span class=\"js-string\">\"js-keyword\"</span>>return</span> &quot;&lt;b&gt;&quot;; \x7d</code></pre><br>            </div><br>        </p>" := eq_of_beq (by decide)
  refine ⟨he, ?_, ?_, ?_, ?_⟩ <;> rw [he] <;> decide

/-- C3: rendering the fenced `js` block whose body's second line is
`# hello` through `convertMarkdownToHTML`: the line is rendered as an h1
header (the header pass runs over the already-assembled HTML, including
the displayed code), and the displayed code no longer contains the
original `# hello` line. -/
theorem code_block_hash_rendered_as_header :
    convertMarkdownToHTML (fun _ => str "X") (str "\x60\x60\x60js\nx\n# hello\n\x60\x60\x60")
      = str "<p><br>            <div class=\"code-block-container\"><br>                <div class=\"code-block-header\"><br>                    <span class=\"code-language\">js</span><br>                    <button class=\"copy-code-button\" onclick=\"copyCodeBlock(\x27X\x27)\" data-tooltip=\"Copy code\"><br>                        <svg xmlns=\"http://www.w3.org/2000/svg\" width=\"16\" height=\"16\" viewBox=\"0 0 24 24\" fill=\"none\" stroke=\"currentColor\" stroke-width=\"2\" stroke-linecap=\"round\" stroke-linejoin=\"round\"><br>                            <rect x=\"9\" y=\"9\" width=\"13\" height=\"13\" rx=\"2\" ry=\"2\"></rect><br>                            <path d=\"M5 15H4a2 2 0 0 1-2-2V4a2 2 0 0 1 2-2h9a2 2 0 0 1 2 2v1\"></path><br>                        </svg><br>                        Copy<br>                    </button><br>                </div><br>                <pre><code id=\"X\" class=\"language-js\" data-original-code=\"eAojIGhlbGxv\">x<br><h1>hello</code></pre></h1><br>            </div><br>        </p>" ∧
    hasSub (str "<h1>hello</code></pre></h1>")
      (convertMarkdownToHTML (fun _ => str "X")
        (str "\x60\x60\x60js\nx\n# hello\n\x60\x60\x60")) = true ∧
    hasSub (str "# hello")
      (convertMarkdownToHTML (fun _ => str "X")
        (str "\x60\x60\x60js\nx\n# hello\n\x60\x60\x60")) = false := by
  have he : convertMarkdownToHTML (fun _ => str "X") (str "\x60\x60\x60js\nx\n# hello\n\x60\x60\x60")
      = str "<p><br>            <div class=\"code-block-container\"><br>                <div class=\"code-block-header\"><br>                    <span class=\"code-language\">js</span><br>                    <button class=\"copy-code-button\" onclick=\"copyCodeBlock(\x27X\x27)\" data-tooltip=\"Copy code\"><br>                        <svg xmlns=\"http://www.w3.org/2000/svg\" width=\"16\" height=\"16\" viewBox=\"0 0 24 24\" fill=\"none\" stroke=\"currentColor\" stroke-width=\"2\" stroke-linecap=\"round\" stroke-linejoin=\"round\"><br>                            <rect x=\"9\" y=\"9\" width=\"13\" height=\"13\" rx=\"2\" ry=\"2\"></rect><br>                            <path d=\"M5 15H4a2 2 0 0 1-2-2V4a2 2 0 0 1 2-2h9a2 2 0 0 1 2 2v1\"></path><br>                        </svg><br>                        Copy<br>                    </button><br>                </div><br>                <pre><code id=\"X\" class=\"language-js\" data-original-code=\"eAojIGhlbGxv\">x<br><h1>hello</code></pre></h1><br>            </div><br>        </p>" := eq_of_beq (by decide)
  refine ⟨he, ?_, ?_⟩ <;> rw [he] <;> decide

/-- C6: the final cleanup does alter text content.  For the rendered
response to question `Q` with a `js` fence whose code keeps two double
spaces (`let a  =  1;`), the displayed code text inside the pre/code
element comes out with the runs collapsed (`let</span> a = <span …`, and
`a  =  1` occurs nowhere), even though the data attribute still stores
the base64 of the raw text (`bGV0IGEgID0gIDE7`); and directly, the
cleanup rewrites text inside a pre/code element. -/
theorem cleanup_alters_code_text :
    processResponse (fun _ => str "X") (str "Q") (str "\x60\x60\x60js\nlet a  =  1;\n\x60\x60\x60")
      = str "<h1>Q?</h1><p><div class=\"code-block-container\"><br><div class=\"code-block-header\"><br><span class=\"code-language\">js</span><br><button class=\"copy-code-button\" onclick=\"copyCodeBlock(\x27X\x27)\" data-tooltip=\"Copy code\"><br><svg xmlns=\"http://www.w3.org/2000/svg\" width=\"16\" height=\"16\" viewBox=\"0 0 24 24\" fill=\"none\" stroke=\"currentColor\" stroke-width=\"2\" stroke-linecap=\"round\" stroke-linejoin=\"round\"><br><rect x=\"9\" y=\"9\" width=\"13\" height=\"13\" rx=\"2\" ry=\"2\"></rect><br><path d=\"M5 15H4a2 2 0 0 1-2-2V4a2 2 0 0 1 2-2h9a2 2 0 0 1 2 2v1\"></path><br></svg><br> Copy<br></button><br></div><br><pre><code id=\"X\" class=\"language-js\" data-original-code=\"bGV0IGEgID0gIDE7\"><span class=<span class=\"js-string\">\"js-keyword\"</span>>let</span> a = <span class=\"js-number\">1</span>;</code></pre><br></div><br></p>" ∧
    hasSub (str "a  =  1")
      (processResponse (fun _ => str "X") (str "Q")
        (str "\x60\x60\x60js\nlet a  =  1;\n\x60\x60\x60")) = false ∧
    processResponseCleanup (str "<pre><code>a  b\nc</code></pre>")
      = str "<pre><code>a b c</code></pre>" := by
  have he : processResponse (fun _ => str "X") (str "Q") (str "\x60\x60\x60js\nlet a  =  1;\n\x60\x60\x60")
      = str "<h1>Q?</h1><p><div class=\"code-block-container\"><br><div class=\"code-block-header\"><br><span class=\"code-language\">js</span><br><button class=\"copy-code-button\" onclick=\"copyCodeBlock(\x27X\x27)\" data-tooltip=\"Copy code\"><br><svg xmlns=\"http://www.w3.org/2000/svg\" width=\"16\" height=\"16\" viewBox=\"0 0 24 24\" fill=\"none\" stroke=\"currentColor\" stroke-width=\"2\" stroke-linecap=\"round\" stroke-linejoin=\"round\"><br><rect x=\"9\" y=\"9\" width=\"13\" height=\"13\" rx=\"2\" ry=\"2\"></rect><br><path d=\"M5 15H4a2 2 0 0 1-2-2V4a2 2 0 0 1 2-2h9a2 2 0 0 1 2 2v1\"></path><br></svg><br> Copy<br></button><br></div><br><pre><code id=\"X\" class=\"language-js\" data-original-code=\"bGV0IGEgID0gIDE7\"><span class=<span class=\"js-string\">\"js-keyword\"</span>>let</span> a = <span class=\"js-number\">1</span>;</code></pre><br></div><br></p>" := eq_of_beq (by decide)
  refine ⟨he, ?_, by decide⟩
  rw [he]
  decide

/-- C7 counterexample: on the spec's own example
`foo [[1](https://example.com)]`, the hand-rolled renderer of
response-template.js matches the generic link rule at the outer bracket
first, producing an anchor whose visible text is `[1` with the closing
`]` outside the anchor; no anchor with visible text `[1]` appears. -/
theorem citation_link_rule_mismatch :
    convertMarkdownToHTML (fun _ => str "X") (str "foo [[1](https://example.com)]")
      = str "<p>foo <a href=\"https://example.com\" target=\"_blank\" rel=\"noopener noreferrer\">[1</a>]</p>" ∧
    hasSub (str ">[1]</a>")
      (convertMarkdownToHTML (fun _ => str "X")
        (str "foo [[1](https://example.com)]")) = false := by
  have he : convertMarkdownToHTML (fun _ => str "X") (str "foo [[1](https://example.com)]")
      = str "<p>foo <a href=\"https://example.com\" target=\"_blank\" rel=\"noopener noreferrer\">[1</a>]</p>" := eq_of_beq (by decide)
  refine ⟨he, ?_⟩
  rw [he]
  decide

theorem takeWhile_append_all (p : Char → Bool) :
    ∀ (l x : List Char), (∀ y ∈ l, p y = true) →
      (l ++ x).takeWhile p = l ++ x.takeWhile p
  | [], _, _ => by simp
  | c :: cs, x, h => by
    have hc : p c = true := h c (by simp)
    rw [List.cons_append, List.takeWhile_cons_of_pos hc,
      takeWhile_append_all p cs x (fun y hy => h y (by simp [hy]))]
    rfl

theorem findCiteEnd_close (url : List Char) (hp : ')' ∉ url) (hn : '\n' ∉ url) :
    findCiteEnd (url ++ [')', ']']) = some (url, []) := by
  induction url with
  | nil => decide
  | cons c u ih =>
    have hc : c ≠ ')' := fun he => hp (he ▸ List.mem_cons_self c u)
    have hcn : c ≠ '\n' := fun he => hn (he ▸ List.mem_cons_self c u)
    have hp2 : ')' ∉ u := fun hm => hp (List.mem_cons_of_mem c hm)
    have hn2 : '\n' ∉ u := fun hm => hn (List.mem_cons_of_mem c hm)
    rw [List.cons_append]
    unfold findCiteEnd
    rw [if_neg (by simp [begMatch, str]; intro he; exact absurd he.symm hc),
      if_neg hcn, ih hp2 hn2]
    rfl

/-- C7 (amended): the citation pass of the markdown-it formatter
(response-formatter.js lines 146–149) renders every citation marker
`[[n](url)]` (nonempty digit index, url without `)` or newline) as an
anchor with visible text exactly `[n]` and href `url`, opening in a new
tab; in the hand-rolled renderer of response-template.js the generic
link rule fires instead and splits the brackets (see the
counterexample). -/
theorem citation_pass_renders_anchor (ds url : List Char)
    (h1 : ds ≠ []) (h2 : ∀ c ∈ ds, isDigitCh c = true)
    (h3 : ')' ∉ url) (h4 : '\n' ∉ url) :
    citationReplace (str "[[" ++ ds ++ str "](" ++ url ++ str ")]")
      = str "<a href=\"" ++ url ++
          str "\" target=\"_blank\" rel=\"noopener noreferrer\" class=\"inline-citation\">[" ++
          ds ++ str "]</a>" := by
  have hL : str "[[" ++ ds ++ str "](" ++ url ++ str ")]"
      = '[' :: '[' :: (ds ++ (']' :: '(' :: (url ++ [')', ']']))) := by
    rw [show str "[[" = ['[', '['] from rfl, show str "](" = [']', '('] from rfl,
      show str ")]" = [')', ']'] from rfl]
    simp [List.append_assoc]
  have htw : (ds ++ (']' :: '(' :: (url ++ [')', ']']))).takeWhile isDigitCh = ds := by
    rw [takeWhile_append_all _ _ _ h2,
      List.takeWhile_cons_of_neg (by decide), List.append_nil]
  have hne : ds.isEmpty = false := by
    cases ds with
    | nil => exact absurd rfl h1
    | cons a as => rfl
  have hdl : (ds ++ (']' :: '(' :: (url ++ [')', ']']))).drop ds.length
      = ']' :: '(' :: (url ++ [')', ']']) := List.drop_left ds _
  have hf := findCiteEnd_close url h3 h4
  unfold citationReplace
  rw [hL]
  simp only [List.length_cons, List.length_append]
  have hbm1 : begMatch (str "[[")
      ('[' :: '[' :: (ds ++ ']' :: '(' :: (url ++ [')', ']']))) = true := rfl
  have hbm2 : begMatch (str "](") (']' :: '(' :: (url ++ [')', ']'])) = true := rfl
  simp [citationReplaceGo, htw, hne, hdl, hf, hbm1, hbm2]

/-- Witness for C7's amended theorem at the spec's own example. -/
theorem citation_pass_renders_anchor_witness :
    citationReplace (str "[[" ++ str "1" ++ str "](" ++
        str "https://example.com" ++ str ")]")
      = str "<a href=\"" ++ str "https://example.com" ++
          str "\" target=\"_blank\" rel=\"noopener noreferrer\" class=\"inline-citation\">[" ++
          str "1" ++ str "]</a>" :=
  citation_pass_renders_anchor (str "1") (str "https://example.com")
    (by decide) (by decide) (by decide) (by decide)

theorem inlineCodeGo_head (fuel : Nat) (content : List Char)
    (h1 : content ≠ []) (h2 : bq ∉ content) :
    inlineCodeGo (fuel + 1) (bq :: (content ++ [bq])) =
      str "<code class=\"inline-code\">" ++ content ++ str "</code>" := by
  have hall : ∀ y ∈ content, (fun x => !(x == bq)) y = true := by
    intro y hy
    by_cases hyb : y = bq
    · exact absurd (hyb ▸ hy) h2
    · simp [hyb]
  have htw : (content ++ [bq]).takeWhile (fun x => !(x == bq)) = content := by
    rw [takeWhile_append_all _ _ _ hall,
      show (([bq] : List Char).takeWhile fun x => !(x == bq)) = [] from by decide,
      List.append_nil]
  have hne : content.isEmpty = false := by
    cases content with
    | nil => exact absurd rfl h1
    | cons a as => rfl
  simp only [inlineCodeGo]
  rw [if_pos trivial, htw, hne]
  simp only [Bool.false_eq_true, if_false]
  rw [List.drop_left]
  rw [if_pos (show ([bq] : List Char).head? = some bq from rfl)]
  rw [show List.drop 1 ([bq] : List Char) = [] from rfl,
    show inlineCodeGo fuel [] = [] from by cases fuel <;> rfl]
  simp [List.append_assoc]

/-- C10 (implicit): inline code is inserted into the HTML verbatim.  In
general, for every nonempty backquote-free `content`, the inline-code
rule rewrites the span to the code element containing `content`
character for character, with none of the five metacharacters escaped;
and through the whole renderer the span `a < b & c` reaches the output
HTML with `<` and `&` unescaped, in contrast to fenced content, which
`escapeHtml` rewrites first. -/
theorem inline_code_inserted_verbatim :
    (∀ content : List Char, content ≠ [] → bq ∉ content →
        inlineCode (bq :: (content ++ [bq])) =
          str "<code class=\"inline-code\">" ++ content ++ str "</code>") ∧
    convertMarkdownToHTML (fun _ => str "X") (str "use \x60a < b & c\x60 here")
      = str "<p>use <code class=\"inline-code\">a < b & c</code> here</p>" ∧
    escapeHtml (str "a < b & c") = str "a &lt; b &amp; c" := by
  refine ⟨?_, by decide, by decide⟩
  intro content h1 h2
  unfold inlineCode
  rw [show (bq :: (content ++ [bq])).length = content.length + 1 + 1 from by
    simp [List.length_append]]
  exact inlineCodeGo_head _ content h1 h2

/-- Witness for C10's general conjunct at the concrete span
`a < b & c`. -/
theorem inline_code_inserted_verbatim_witness :
    inlineCode (bq :: (str "a < b & c" ++ [bq])) =
      str "<code class=\"inline-code\">" ++ str "a < b & c" ++ str "</code>" :=
  inline_code_inserted_verbatim.1 (str "a < b & c") (by decide) (by decide)

end Nexus
